import Mathlib

/-!
Shallow embedding of the FastComms serial message-framing library
(fastcomms.h / fastcomms.cpp) and verification of its specification.

Modelling conventions:
- C strings are `List Nat` of byte values; the list holds the characters up
  to (not including) the terminating null, so a well-formed C string content
  contains no 0 byte.  `cstr` models reading a char buffer up to the first
  null (what `strlen` / `strcpy` see).
- The fixed-size char arrays `_in` are modelled as total functions
  `Nat → Nat`; writes beyond the intended capacity never happen in the code
  paths (a fact proved below), so a total function is adequate and lets us
  express the no-out-of-bounds-write property as buffer preservation.
- The `_out` pointer array is modelled as `out : Nat → Nat` giving, for each
  queue position, the index of the preallocated slot `_ob` it points to, and
  `ob : Nat → List Nat` gives the string content of each slot.
- The serial port is a `Channel`: a list of inbound bytes still to be read
  (`available()` is its length, `read()` pops the head), a write-capacity
  count (`availableForWrite()`), and a log of bytes written so far.
- The registered message handler is modelled by the flag `handlerSet`
  together with the log `delivered` of the messages it was invoked on.
- `uint8_t` arithmetic is modelled on `Nat` with an explicit `% 256`
  exactly where the C code narrows a wider value into a `uint8_t`.
-/

/-- rx/tx buffer size in bytes (fastcomms.h line 29). -/
def BUFFER_SIZE : Nat := 64

/-- tx command queue capacity (fastcomms.h line 34). -/
def TX_QUEUE_SIZE : Nat := 4

/-- first terminator byte, carriage return (fastcomms.h line 39). -/
def MSG_END_A : Nat := 13

/-- second terminator byte, line feed (fastcomms.h line 42). -/
def MSG_END_B : Nat := 10

/-- the bytes of the fixed overflow notice "!rx buffer full!" (fastcomms.h line 47). -/
def RX_BUFFER_OVERFLOW : List Nat :=
  [33, 114, 120, 32, 98, 117, 102, 102, 101, 114, 32, 102, 117, 108, 108, 33]

/-- the bytes of the fixed bad-checksum notice "!rx badchecksum!" (fastcomms.h line 51). -/
def RX_BAD_CHECKSUM : List Nat :=
  [33, 114, 120, 32, 98, 97, 100, 99, 104, 101, 99, 107, 115, 117, 109, 33]

/-- Reading a char buffer as a C string: the bytes before the first null.
This is what `strlen`, `strcpy` and `strncat` see of a buffer. -/
def cstr (l : List Nat) : List Nat := l.takeWhile (fun b => b ≠ 0)

/-- First `n` cells of a modelled char array. -/
def readBuf (f : Nat → Nat) (n : Nat) : List Nat := (List.range n).map f

/-- Writing one cell of a modelled char array. -/
def writeCell (f : Nat → Nat) (k b : Nat) : Nat → Nat :=
  fun j => if j = k then b else f j

/-- State of one `FastComms` object (private members, fastcomms.h lines 85-123). -/
structure State where
  /-- `_useChecksum` -/
  useChecksum : Bool
  /-- content of the `_msg` message buffer as a C string -/
  msg : List Nat
  /-- the `_in` input buffer cells -/
  inBuf : Nat → Nat
  /-- `_i`, the input buffer index -/
  i : Nat
  /-- `_rx`, the message-received flag -/
  rx : Bool
  /-- whether `_msgHandler` is non-null -/
  handlerSet : Bool
  /-- log of the messages the registered handler has been invoked on -/
  delivered : List (List Nat)
  /-- `_out`: queue position to slot index (a pointer into `_ob`) -/
  out : Nat → Nat
  /-- `_ob`: slot index to the C-string content stored in that slot -/
  ob : Nat → List Nat
  /-- `_obi`, the round-robin next-slot index -/
  obi : Nat
  /-- `_o`, the queue size -/
  o : Nat
  /-- `_txb`, index of the next byte of the head entry to send -/
  txb : Nat
  /-- `_txlen`, total byte count of the head entry being sent -/
  txlen : Nat

/-- The serial channel as seen through `available` / `read` /
`availableForWrite` / `write`. -/
structure Channel where
  /-- bytes waiting to be read, head first -/
  inbox : List Nat
  /-- reported write capacity -/
  txCap : Nat
  /-- log of all bytes written so far -/
  written : List Nat

/-- `FastComms::checkSum` (fastcomms.cpp lines 98-107): unsigned 8-bit
wraparound sum of the bytes of the message.  The C accumulator is a
`uint8_t`, so every addition is reduced mod 256; integer promotion of a
(possibly signed) `char` operand changes the summand only by a multiple of
256 and hence not the result. -/
def checkSum (msg : List Nat) : Nat :=
  msg.foldl (fun s b => (s + b) % 256) 0

/-- `FastComms::sendMsg` (fastcomms.cpp lines 48-95).  Returns the new state
and the `int8_t` result.  `uint8_t l = strlen(msg)` narrows the length to a
`uint8_t`, hence the `% 256`; `strncat(_out[_o], msg, BUFFER_SIZE - 1)`
copies at most `BUFFER_SIZE - 1` characters of the string into the slot. -/
def sendMsg (s : State) (msg : List Nat) : State × Int :=
  if s.o < TX_QUEUE_SIZE then
    let l := (cstr msg).length % 256
    if l < BUFFER_SIZE then
      ({ s with
          out := writeCell s.out s.o s.obi,
          ob := fun k => if k = s.obi then (cstr msg).take (BUFFER_SIZE - 1) else s.ob k,
          o := s.o + 1,
          obi := if s.obi < TX_QUEUE_SIZE - 1 then s.obi + 1 else 0 }, 1)
    else
      (s, -2)
  else
    (s, -1)

/-- Decimal digit bytes of `n`, most significant first, with enough fuel;
models the `%d` rendering done by `sprintf`. -/
def decDigitsCore (fuel n : Nat) : List Nat :=
  match fuel with
  | 0 => []
  | f + 1 => if n < 10 then [48 + n] else decDigitsCore f (n / 10) ++ [48 + n % 10]

/-- Decimal digit bytes of `n`, most significant first. -/
def decDigits (n : Nat) : List Nat := decDigitsCore (n + 1) n

/-- Bytes produced by `sprintf(sum, "!got [%d]", rxsum)`
(fastcomms.cpp line 180): the characters of "!got [", the decimal digits of
the received checksum, and "]". -/
def gotText (rxsum : Nat) : List Nat :=
  [33, 103, 111, 116, 32, 91] ++ decDigits rxsum ++ [93]

/-- Raising the `_rx` flag, copying a completed message into `_msg` and
invoking the registered handler on it (fastcomms.cpp lines 163-170 and
190-201 share this code shape). -/
def deliver (s : State) (m : List Nat) : State :=
  { s with
      rx := true,
      msg := m,
      delivered := if s.handlerSet then s.delivered ++ [m] else s.delivered }

/-- The RX section of `FastComms::txrx` (fastcomms.cpp lines 122-229).
Reads at most one byte: the single `if (_port->available() > 0)` test guards
one `read`.  In the checksum extraction, `strcpy(data, _in)` copies the
buffer bytes up to the null just planted at `_i - 2`, so the extracted
string is the first `_i - 2` cells read as a C string; the same cells are
unchanged by the write at `_i - 2`, so we read them from the updated buffer
or the original interchangeably. -/
def rxPhase (s : State) (ch : Channel) : State × Channel :=
  if s.i < BUFFER_SIZE then
    match ch.inbox with
    | [] => (s, ch)
    | b :: rest =>
      let ch1 : Channel := { ch with inbox := rest }
      let buf1 := writeCell s.inBuf s.i b
      let s1 : State := { s with inBuf := buf1 }
      if 0 < s.i ∧ b = MSG_END_B then
        if buf1 (s.i - 1) = MSG_END_A then
          if s.useChecksum ∧ 2 < s.i then
            let rxsum := buf1 (s.i - 2)
            let buf2 := writeCell buf1 (s.i - 2) 0
            let data := cstr (readBuf buf2 (s.i - 2))
            if rxsum = checkSum data then
              ({ deliver { s1 with inBuf := buf2 } data with i := 0 }, ch1)
            else
              let s2 := { s1 with inBuf := buf2 }
              let s3 := (sendMsg s2 RX_BAD_CHECKSUM).1
              let s4 := (sendMsg s3 (33 :: data)).1
              let s5 := (sendMsg s4 (gotText rxsum)).1
              ({ s5 with i := 0 }, ch1)
          else
            let buf2 := writeCell buf1 (s.i - 1) 0
            let data := cstr (readBuf buf2 (s.i - 1))
            ({ deliver { s1 with inBuf := buf2 } data with i := 0 }, ch1)
        else
          ({ s1 with i := s.i + 1 }, ch1)
      else
        ({ s1 with i := s.i + 1 }, ch1)
  else
    ((sendMsg { s with i := 0 } RX_BUFFER_OVERFLOW).1, ch)

/-- Head entry of the outbound queue: the content of the slot the position-0
pointer refers to (`_out[0]`). -/
def headMsg (s : State) : List Nat := s.ob (s.out 0)

/-- Queue-array indices read by the dequeue shift loop
`for (_m = 1; _m <= _o; _m++) _out[_m - 1] = _out[_m];`
(fastcomms.cpp lines 319-324): the indices `1 .. _o` inclusive. -/
def dequeueShiftReads (o : Nat) : List Nat := (List.range o).map (fun m => m + 1)

/-- Setting `_txlen` when transmission of the head entry has not started
(fastcomms.cpp lines 235-248): `_txlen = strlen(_out[0]) + 3` with checksums
enabled, `+ 2` without; the store is into a `uint8_t`, hence `% 256`. -/
def txStart (s : State) : State :=
  if s.txb = 0 ∧ s.txlen = 0 then
    { s with
        txlen := ((cstr (headMsg s)).length + (if s.useChecksum then 3 else 2)) % 256 }
  else s

/-- The byte passed to `_port->write` by the TX section (fastcomms.cpp lines
258-309), `none` when no `write` call is reached (only possible when
`bytes_left = 0`).  `_out[0][_txb]` reads the slot array at `_txb`; the slot
is modelled by its C-string content, so the read is `getD` with an arbitrary
default for the stale cells after the terminator (never reached when
`_txlen` was computed from this entry). -/
def txByte (s : State) : Option Nat :=
  let bl := s.txlen - s.txb
  if s.useChecksum then
    if bl ≤ 3 then
      if bl = 3 then some (checkSum (cstr (headMsg s)))
      else if bl = 2 then some MSG_END_A
      else if bl = 1 then some MSG_END_B
      else none
    else some ((cstr (headMsg s)).getD s.txb 0)
  else
    if bl ≤ 2 then
      if bl = 2 then some MSG_END_A
      else if bl = 1 then some MSG_END_B
      else none
    else some ((cstr (headMsg s)).getD s.txb 0)

/-- Completion of the head entry (fastcomms.cpp lines 316-332): the pointer
shift loop, `_o -= 1`, and the cursor reset.  The shift loop is expressed
through `dequeueShiftReads`: cell `k` receives `_out[k + 1]` exactly when
`k + 1` is one of the indices the loop reads; every other cell is
unchanged. -/
def dequeueStep (s : State) : State :=
  { s with
      out := fun k => if k + 1 ∈ dequeueShiftReads s.o then s.out (k + 1) else s.out k,
      o := s.o - 1,
      txlen := 0,
      txb := 0 }

/-- The TX section of `FastComms::txrx` (fastcomms.cpp lines 230-333). -/
def txPhase (s : State) (ch : Channel) : State × Channel :=
  if 0 < s.o then
    let s1 := txStart s
    if s1.txb < s1.txlen then
      if 0 < ch.txCap then
        ({ s1 with txb := s1.txb + 1 },
         { ch with written := ch.written ++ (txByte s1).toList })
      else
        (s1, ch)
    else
      (dequeueStep s1, ch)
  else
    (s, ch)

/-- `FastComms::txrx` (fastcomms.cpp lines 116-345): the RX section, then
the TX section, then consume-and-return the `_rx` flag.  The `_port`
null check is omitted: all claims concern an initialised object. -/
def txrx (s : State) (ch : Channel) : State × Channel × Bool :=
  let p1 := rxPhase s ch
  let p2 := txPhase p1.1 p1.2
  if p2.1.rx then ({ p2.1 with rx := false }, p2.2, true) else (p2.1, p2.2, false)

/-- Iterate `txrx` for a number of ticks, threading state and channel. -/
def runTicks (s : State) (ch : Channel) : Nat → State × Channel
  | 0 => (s, ch)
  | n + 1 =>
    let p := txrx s ch
    runTicks p.1 p.2.1 n

/-- A freshly initialised `FastComms` object with a registered handler:
all counters zero, flags down, buffers zeroed, checksum mode as given. -/
def init0 (mode : Bool) : State :=
  { useChecksum := mode,
    msg := [],
    inBuf := fun _ => 0,
    i := 0,
    rx := false,
    handlerSet := true,
    delivered := [],
    out := fun _ => 0,
    ob := fun _ => [],
    obi := 0,
    o := 0,
    txb := 0,
    txlen := 0 }

/-! ### Basic projection lemmas -/

theorem sendMsg_i (s : State) (m : List Nat) : (sendMsg s m).1.i = s.i := by
  unfold sendMsg; dsimp only; repeat' split
  all_goals rfl

theorem sendMsg_inBuf (s : State) (m : List Nat) : (sendMsg s m).1.inBuf = s.inBuf := by
  unfold sendMsg; dsimp only; repeat' split
  all_goals rfl

theorem sendMsg_rx (s : State) (m : List Nat) : (sendMsg s m).1.rx = s.rx := by
  unfold sendMsg; dsimp only; repeat' split
  all_goals rfl

theorem sendMsg_delivered (s : State) (m : List Nat) :
    (sendMsg s m).1.delivered = s.delivered := by
  unfold sendMsg; dsimp only; repeat' split
  all_goals rfl

theorem sendMsg_msg (s : State) (m : List Nat) : (sendMsg s m).1.msg = s.msg := by
  unfold sendMsg; dsimp only; repeat' split
  all_goals rfl

theorem sendMsg_useChecksum (s : State) (m : List Nat) :
    (sendMsg s m).1.useChecksum = s.useChecksum := by
  unfold sendMsg; dsimp only; repeat' split
  all_goals rfl

theorem sendMsg_handlerSet (s : State) (m : List Nat) :
    (sendMsg s m).1.handlerSet = s.handlerSet := by
  unfold sendMsg; dsimp only; repeat' split
  all_goals rfl

theorem sendMsg_txb (s : State) (m : List Nat) : (sendMsg s m).1.txb = s.txb := by
  unfold sendMsg; dsimp only; repeat' split
  all_goals rfl

theorem sendMsg_txlen (s : State) (m : List Nat) : (sendMsg s m).1.txlen = s.txlen := by
  unfold sendMsg; dsimp only; repeat' split
  all_goals rfl

theorem txStart_rx (s : State) : (txStart s).rx = s.rx := by
  unfold txStart; split <;> rfl

theorem txStart_i (s : State) : (txStart s).i = s.i := by
  unfold txStart; split <;> rfl

theorem txStart_inBuf (s : State) : (txStart s).inBuf = s.inBuf := by
  unfold txStart; split <;> rfl

theorem txStart_delivered (s : State) : (txStart s).delivered = s.delivered := by
  unfold txStart; split <;> rfl

theorem txStart_msg (s : State) : (txStart s).msg = s.msg := by
  unfold txStart; split <;> rfl

theorem txStart_o (s : State) : (txStart s).o = s.o := by
  unfold txStart; split <;> rfl

theorem txStart_out (s : State) : (txStart s).out = s.out := by
  unfold txStart; split <;> rfl

theorem txStart_ob (s : State) : (txStart s).ob = s.ob := by
  unfold txStart; split <;> rfl

theorem txStart_obi (s : State) : (txStart s).obi = s.obi := by
  unfold txStart; split <;> rfl

theorem txStart_useChecksum (s : State) : (txStart s).useChecksum = s.useChecksum := by
  unfold txStart; split <;> rfl

theorem txStart_handlerSet (s : State) : (txStart s).handlerSet = s.handlerSet := by
  unfold txStart; split <;> rfl

theorem txPhase_rx (s : State) (ch : Channel) : (txPhase s ch).1.rx = s.rx := by
  unfold txPhase; dsimp only; repeat' split
  all_goals simp [dequeueStep, txStart_rx]

theorem txPhase_i (s : State) (ch : Channel) : (txPhase s ch).1.i = s.i := by
  unfold txPhase; dsimp only; repeat' split
  all_goals simp [dequeueStep, txStart_i]

theorem txPhase_inBuf (s : State) (ch : Channel) : (txPhase s ch).1.inBuf = s.inBuf := by
  unfold txPhase; dsimp only; repeat' split
  all_goals simp [dequeueStep, txStart_inBuf]

theorem txPhase_delivered (s : State) (ch : Channel) :
    (txPhase s ch).1.delivered = s.delivered := by
  unfold txPhase; dsimp only; repeat' split
  all_goals simp [dequeueStep, txStart_delivered]

theorem txPhase_msg (s : State) (ch : Channel) : (txPhase s ch).1.msg = s.msg := by
  unfold txPhase; dsimp only; repeat' split
  all_goals simp [dequeueStep, txStart_msg]

theorem txPhase_ob (s : State) (ch : Channel) : (txPhase s ch).1.ob = s.ob := by
  unfold txPhase; dsimp only; repeat' split
  all_goals simp [dequeueStep, txStart_ob]

theorem txPhase_obi (s : State) (ch : Channel) : (txPhase s ch).1.obi = s.obi := by
  unfold txPhase; dsimp only; repeat' split
  all_goals simp [dequeueStep, txStart_obi]

theorem txPhase_handlerSet (s : State) (ch : Channel) :
    (txPhase s ch).1.handlerSet = s.handlerSet := by
  unfold txPhase; dsimp only; repeat' split
  all_goals simp [dequeueStep, txStart_handlerSet]

theorem txPhase_useChecksum (s : State) (ch : Channel) :
    (txPhase s ch).1.useChecksum = s.useChecksum := by
  unfold txPhase; dsimp only; repeat' split
  all_goals simp [dequeueStep, txStart_useChecksum]

theorem txPhase_inbox (s : State) (ch : Channel) : (txPhase s ch).2.inbox = ch.inbox := by
  unfold txPhase; dsimp only; repeat' split
  all_goals rfl

theorem txPhase_txCap (s : State) (ch : Channel) : (txPhase s ch).2.txCap = ch.txCap := by
  unfold txPhase; dsimp only; repeat' split
  all_goals rfl

/-! ### C9: the checksum function -/

theorem checkSum_foldl_mod (l : List Nat) :
    ∀ a : Nat, l.foldl (fun s b => (s + b) % 256) (a % 256) = (a + l.sum) % 256 := by
  induction l with
  | nil => intro a; simp
  | cons b t ih =>
    intro a
    simp only [List.foldl_cons, List.sum_cons, Nat.mod_add_mod]
    rw [ih (a + b), Nat.add_assoc]

/-- C9 (confirmed): `checkSum P` is the sum of the bytes of `P` modulo 256
for every byte string `P`, and is `0` on the empty string; in the embedding
`checkSum` is a pure total function with no error cases. -/
theorem C9_checkSum_is_sum_mod_256 :
    (∀ P : List Nat, checkSum P = P.sum % 256) ∧ checkSum [] = 0 := by
  constructor
  · intro P
    have h := checkSum_foldl_mod P 0
    simpa [checkSum] using h
  · rfl

/-! ### C5: sendMsg length check is defeated by uint8_t truncation -/

set_option maxRecDepth 10000 in
/-- C5 (code_bug): a message of length 256 has length at least
`BUFFER_SIZE`, so the claim requires `sendMsg` to return `-2`
(`MessageTooLarge`) and leave the queue unchanged; but
`uint8_t l = strlen(msg)` narrows 256 to 0, the `l < BUFFER_SIZE` check
passes, and the call returns success `1`, enqueuing a copy truncated by
`strncat` to the first 63 characters. -/
theorem C5_bug_length_truncation :
    BUFFER_SIZE ≤ (List.replicate 256 97 : List Nat).length ∧
    (sendMsg (init0 false) (List.replicate 256 97)).2 = 1 ∧
    (sendMsg (init0 false) (List.replicate 256 97)).1.o = 1 ∧
    (sendMsg (init0 false) (List.replicate 256 97)).1.ob 0 = List.replicate 63 97 := by
  decide

/-! ### C2: checksum-path extraction buffer overflow -/

/-- Number of bytes `strcpy(data, _in)` writes into the local extraction
array `char data[BUFFER_SIZE - 3]` when the next inbound byte `b` makes the
RX section take the checksummed extraction branch (fastcomms.cpp lines
143-156), and `none` when that branch is not taken.  The branch guards are
those of lines 125, 128, 134, 137 and 143; the bytes written are the
extracted C string (the buffer cells before index `_i - 2` up to the null
just planted there) plus the terminating null. -/
def strcpyDataBytes (s : State) (b : Nat) : Option Nat :=
  if s.i < BUFFER_SIZE ∧ 0 < s.i ∧ b = MSG_END_B ∧ s.inBuf (s.i - 1) = MSG_END_A ∧
      s.useChecksum ∧ 2 < s.i then
    some ((cstr (readBuf s.inBuf (s.i - 2))).length + 1)
  else
    none

/-- A maximum-length checksummed frame: 61 payload bytes (all 97), the
matching checksum 29 (since 61 * 97 mod 256 = 29), and the terminator. -/
def c2wire : List Nat := List.replicate 61 97 ++ [29, 13, 10]

/-- The receiver state and channel after the first 63 bytes of `c2wire`
have been consumed, one per tick. -/
def c2run : State × Channel := runTicks (init0 true) ⟨c2wire, 0, []⟩ 63

set_option maxRecDepth 10000 in
/-- C2 (code_bug): an accepted checksummed frame with a payload of the
maximum mode-dependent length `BUFFER_SIZE - 3 = 61` is reachable; on its
final terminator byte the extraction branch copies the 61 payload bytes
plus the null terminator, 62 bytes, into the local array
`char data[BUFFER_SIZE - 3]` of 61 bytes, one byte past its end.  The claim
that the extraction stays in bounds for every accepted frame is false, and
no explicit capacity check exists on this path. -/
theorem C2_bug_extraction_overflow :
    (c2run.1.i = 63 ∧ c2run.2.inbox = [10]) ∧
    strcpyDataBytes c2run.1 10 = some 62 ∧ BUFFER_SIZE - 3 < 62 := by
  decide

/-! ### C10: dequeue shift loop reads one cell past the queue array -/

/-- The state after enqueuing four (empty) messages into a fresh object:
the queue is full. -/
def c10state : State :=
  (sendMsg ((sendMsg ((sendMsg ((sendMsg (init0 false) []).1) []).1) []).1) []).1

/-- Two ticks transmit both bytes of the head entry (the two-byte
terminator frame of the empty message); the dequeue is still pending. -/
def c10run : State × Channel := runTicks c10state ⟨[], 1, []⟩ 2

set_option maxRecDepth 10000 in
/-- C10 (code_bug): on the third tick the head entry is complete
(`_txb = _txlen`) while the queue still holds `_o = TX_QUEUE_SIZE = 4`
entries, so the dequeue branch runs its shift loop
`for (_m = 1; _m <= _o; _m++) _out[_m-1] = _out[_m];`, whose read indices
are `dequeueShiftReads _o = [1, 2, 3, 4]`: it reads `_out[4]`, one past the
end of the 4-element queue array, contradicting the claim that only indices
strictly less than `TX_QUEUE_SIZE` are accessed. -/
theorem C10_bug_shift_reads_index_Q :
    c10run.1.o = TX_QUEUE_SIZE ∧ ¬ c10run.1.txb < c10run.1.txlen ∧
    TX_QUEUE_SIZE ∈ dequeueShiftReads c10run.1.o ∧
    ¬ TX_QUEUE_SIZE < TX_QUEUE_SIZE ∧
    (txrx c10run.1 c10run.2).1.o = 3 := by
  decide

/-! ### C3: inbound processing per tick -/

/-- C3 (counterexample): with two bytes available and a fresh receiver, one
call to `txrx` reads exactly one byte and leaves the other unread, so it is
not the case that all currently-available inbound bytes are read within one
tick. -/
theorem C3_counterexample_two_bytes_available :
    (txrx (init0 false) ⟨[65, 66], 0, []⟩).2.1.inbox = [66] ∧
    ([66] : List Nat) ≠ [] := by
  decide

/-! ### C4: TX pump dequeue timing -/

/-- One empty message enqueued, then two ticks with write capacity: both
frame bytes go out. -/
def c4run : State × Channel := runTicks (sendMsg (init0 false) []).1 ⟨[], 1, []⟩ 2

/-- C4 (counterexample): the call that writes the final byte of the head
entry leaves `_txb = _txlen` with the entry still queued (`_o = 1`); the
dequeue and cursor reset the claim places in that same call happen only on
the next call. -/
theorem C4_counterexample_dequeue_deferred :
    c4run.2.written = [MSG_END_A, MSG_END_B] ∧ c4run.1.txb = c4run.1.txlen ∧
    c4run.1.o = 1 := by
  decide

/-! ### C6: bad-checksum diagnostics -/

/-- A fresh checksummed receiver fed the frame `"ab"` with a wrong checksum
byte 0 (the true checksum is 195), one byte per tick. -/
def c6run : State := (runTicks (init0 true) ⟨[97, 98, 0, 13, 10], 0, []⟩ 5).1

/-- C6 (counterexample): after the mismatch the first enqueued diagnostic
is the fixed bad-checksum notice, and that notice itself begins with
byte 33, the character `!` — contradicting the claim that the fixed notice
string is not `!`-prefixed.  (No message is delivered and three diagnostics
are queued, as the rest of the claim states.) -/
theorem C6_counterexample_notice_is_prefixed :
    c6run.o = 3 ∧ c6run.ob (c6run.out 0) = RX_BAD_CHECKSUM ∧
    RX_BAD_CHECKSUM.headD 0 = 33 ∧ c6run.delivered = [] := by
  decide

/-! ### Buffer and C-string infrastructure lemmas -/

theorem writeCell_same (f : Nat → Nat) (k b : Nat) : writeCell f k b k = b := by
  simp [writeCell]

theorem writeCell_ne (f : Nat → Nat) (k b j : Nat) (h : j ≠ k) :
    writeCell f k b j = f j := by
  simp [writeCell, h]

theorem readBuf_congr (f g : Nat → Nat) (n : Nat) (h : ∀ j, j < n → f j = g j) :
    readBuf f n = readBuf g n := by
  unfold readBuf
  apply List.map_congr_left
  intro j hj
  exact h j (List.mem_range.mp hj)

theorem readBuf_writeCell_ge (f : Nat → Nat) (k b n : Nat) (h : n ≤ k) :
    readBuf (writeCell f k b) n = readBuf f n := by
  apply readBuf_congr
  intro j hj
  exact writeCell_ne f k b j (by omega)

theorem cstr_sublist (l : List Nat) : (cstr l).length ≤ l.length :=
  (List.takeWhile_prefix _).length_le

theorem cstr_no_zero (l : List Nat) : ∀ x ∈ cstr l, x ≠ 0 := by
  intro x hx
  have h := List.mem_takeWhile_imp hx
  simpa using h

theorem cstr_eq_self (l : List Nat) (h : ∀ x ∈ l, x ≠ 0) : cstr l = l := by
  unfold cstr
  rw [List.takeWhile_eq_self_iff]
  intro x hx
  simpa using h x hx

theorem cstr_idem (l : List Nat) : cstr (cstr l) = cstr l :=
  cstr_eq_self _ (cstr_no_zero l)

theorem decDigitsCore_length_le_one (fuel n : Nat) (h : n < 10) :
    (decDigitsCore fuel n).length ≤ 1 := by
  cases fuel with
  | zero => simp [decDigitsCore]
  | succ f => simp [decDigitsCore, h]

theorem decDigitsCore_length_le_two (fuel n : Nat) (h : n < 100) :
    (decDigitsCore fuel n).length ≤ 2 := by
  cases fuel with
  | zero => simp [decDigitsCore]
  | succ f =>
    by_cases h10 : n < 10
    · simp [decDigitsCore, h10]
    · have : n / 10 < 10 := by omega
      simp only [decDigitsCore, if_neg h10, List.length_append, List.length_cons,
        List.length_nil]
      have := decDigitsCore_length_le_one f (n / 10) this
      omega

theorem decDigitsCore_length_le_three (fuel n : Nat) (h : n < 1000) :
    (decDigitsCore fuel n).length ≤ 3 := by
  cases fuel with
  | zero => simp [decDigitsCore]
  | succ f =>
    by_cases h10 : n < 10
    · simp [decDigitsCore, h10]
    · have : n / 10 < 100 := by omega
      simp only [decDigitsCore, if_neg h10, List.length_append, List.length_cons,
        List.length_nil]
      have := decDigitsCore_length_le_two f (n / 10) this
      omega

theorem decDigitsCore_ge_48 (fuel n : Nat) : ∀ d ∈ decDigitsCore fuel n, 48 ≤ d := by
  induction fuel generalizing n with
  | zero => simp [decDigitsCore]
  | succ f ih =>
    intro d hd
    by_cases h10 : n < 10
    · simp only [decDigitsCore, if_pos h10, List.mem_singleton] at hd
      omega
    · simp only [decDigitsCore, if_neg h10, List.mem_append, List.mem_singleton] at hd
      rcases hd with hd | hd
      · exact ih (n / 10) d hd
      · omega

theorem gotText_no_zero (n : Nat) : ∀ x ∈ gotText n, x ≠ 0 := by
  intro x hx
  simp only [gotText, List.mem_append, List.mem_cons, List.not_mem_nil, or_false] at hx
  rcases hx with ((rfl | rfl | rfl | rfl | rfl | rfl) | hd) | rfl
  · decide
  · decide
  · decide
  · decide
  · decide
  · decide
  · have := decDigitsCore_ge_48 (n + 1) n x hd
    omega
  · decide

theorem gotText_length_le (n : Nat) (h : n ≤ 255) : (gotText n).length ≤ 10 := by
  have hd : (decDigits n).length ≤ 3 :=
    decDigitsCore_length_le_three (n + 1) n (by omega)
  simp only [gotText, List.length_append, List.length_cons, List.length_nil, decDigits] at hd ⊢
  omega

/-! ### Channel-flow lemmas and C3 -/

theorem sendMsg_success (s : State) (m : List Nat) (ho : s.o < TX_QUEUE_SIZE)
    (hl : (cstr m).length % 256 < BUFFER_SIZE) :
    (sendMsg s m).1 =
      { s with
          out := writeCell s.out s.o s.obi,
          ob := fun k => if k = s.obi then (cstr m).take (BUFFER_SIZE - 1) else s.ob k,
          o := s.o + 1,
          obi := if s.obi < TX_QUEUE_SIZE - 1 then s.obi + 1 else 0 } := by
  unfold sendMsg
  dsimp only
  rw [if_pos ho, if_pos hl]

theorem rxPhase_inbox (s : State) (ch : Channel) :
    (rxPhase s ch).2.inbox
      = if s.i < BUFFER_SIZE ∧ ch.inbox ≠ [] then ch.inbox.tail else ch.inbox := by
  obtain ⟨inbox, cap, w⟩ := ch
  cases inbox with
  | nil =>
    simp only [rxPhase]
    split <;> simp
  | cons b rest =>
    simp only [rxPhase]
    repeat' split
    all_goals simp_all

theorem txrx_channel (s : State) (ch : Channel) :
    (txrx s ch).2.1 = (txPhase (rxPhase s ch).1 (rxPhase s ch).2).2 := by
  unfold txrx
  dsimp only
  split <;> rfl

/-- The byte selected by the TX section when transmission is at offset 0 of
a head entry of (C string) length at least 1: the first payload byte. -/
theorem txByte_payload_first (s : State) (h0 : s.txb = 0)
    (hlen : 1 ≤ (cstr (headMsg s)).length)
    (hlt : s.txlen = (cstr (headMsg s)).length + if s.useChecksum then 3 else 2) :
    txByte s = some ((cstr (headMsg s)).getD 0 0) := by
  unfold txByte
  dsimp only
  rw [h0, hlt, Nat.sub_zero]
  cases hm : s.useChecksum with
  | false =>
    simp only [Bool.false_eq_true, if_false]
    rw [if_neg (by omega)]
  | true =>
    simp only [if_true]
    rw [if_neg (by omega)]

/-- When transmission of a head entry of (C string) length at least 1 has
not started (`_txb = _txlen = 0`), a tick of the TX section with write
capacity writes exactly the first payload byte of the head entry. -/
theorem txPhase_first_byte (s : State) (ch : Channel) (ho : 0 < s.o)
    (hb : s.txb = 0) (hl : s.txlen = 0) (hcap : 0 < ch.txCap)
    (hlen1 : 1 ≤ (cstr (headMsg s)).length)
    (hlen2 : (cstr (headMsg s)).length + 3 < 256) :
    (txPhase s ch).2.written = ch.written ++ [(cstr (headMsg s)).getD 0 0] := by
  unfold txPhase
  dsimp only
  rw [if_pos ho]
  have hstart : txStart s =
      { s with txlen := ((cstr (headMsg s)).length + if s.useChecksum then 3 else 2) % 256 } := by
    unfold txStart
    rw [if_pos ⟨hb, hl⟩]
  rw [hstart]
  have hmod :
      ((cstr (headMsg s)).length + if s.useChecksum then 3 else 2) % 256
        = (cstr (headMsg s)).length + if s.useChecksum then 3 else 2 := by
    apply Nat.mod_eq_of_lt
    split <;> omega
  have hpos : ({ s with
      txlen := ((cstr (headMsg s)).length + if s.useChecksum then 3 else 2) % 256 } : State).txb
      < ({ s with
      txlen := ((cstr (headMsg s)).length + if s.useChecksum then 3 else 2) % 256 } : State).txlen := by
    show s.txb < ((cstr (headMsg s)).length + if s.useChecksum then 3 else 2) % 256
    rw [hmod, hb]
    split <;> omega
  rw [if_pos hpos, if_pos hcap]
  rw [txByte_payload_first
    ({ s with txlen := ((cstr (headMsg s)).length + if s.useChecksum then 3 else 2) % 256 })
    hb hlen1 hmod]
  rfl

/-- C3 (corrected, amended claim): in one call to the tick operation the
scheduler reads at most one inbound byte, consuming exactly the head of the
inbox when the inbound buffer has room and a byte is available, and nothing
otherwise (it does not drain all available bytes); and inbound processing
happens strictly before the outbound write of the same tick, so a
diagnostic enqueued by the receive side (here: the overflow notice produced
from a full buffer, reaching an empty queue) already has its first byte
written in that very tick. -/
theorem C3_amended (s : State) (ch : Channel) :
    ((txrx s ch).2.1.inbox
        = if s.i < BUFFER_SIZE ∧ ch.inbox ≠ [] then ch.inbox.tail else ch.inbox) ∧
    (s.o = 0 → s.txb = 0 → s.txlen = 0 → ¬ s.i < BUFFER_SIZE → 0 < ch.txCap →
      (txrx s ch).2.1.written = ch.written ++ [RX_BUFFER_OVERFLOW.headD 0]) := by
  constructor
  · rw [txrx_channel, txPhase_inbox, rxPhase_inbox]
  · intro ho htxb htxlen hibig hcap
    rw [txrx_channel]
    have hrx : rxPhase s ch = ((sendMsg { s with i := 0 } RX_BUFFER_OVERFLOW).1, ch) := by
      unfold rxPhase
      rw [if_neg hibig]
    rw [hrx]
    have hsend := sendMsg_success { s with i := 0 } RX_BUFFER_OVERFLOW
      (by show s.o < TX_QUEUE_SIZE; rw [ho]; decide) (by decide)
    rw [hsend]
    dsimp only
    have hhm : headMsg
        { s with
            i := 0,
            out := writeCell s.out s.o s.obi,
            ob := fun k =>
              if k = s.obi then (cstr RX_BUFFER_OVERFLOW).take (BUFFER_SIZE - 1) else s.ob k,
            o := s.o + 1,
            obi := if s.obi < TX_QUEUE_SIZE - 1 then s.obi + 1 else 0 }
        = RX_BUFFER_OVERFLOW := by
      unfold headMsg writeCell
      dsimp only
      rw [if_pos (by omega : (0:Nat) = s.o), if_pos rfl]
      decide
    rw [txPhase_first_byte
      { s with
          i := 0,
          out := writeCell s.out s.o s.obi,
          ob := fun k =>
            if k = s.obi then (cstr RX_BUFFER_OVERFLOW).take (BUFFER_SIZE - 1) else s.ob k,
          o := s.o + 1,
          obi := if s.obi < TX_QUEUE_SIZE - 1 then s.obi + 1 else 0 }
      ch (Nat.succ_pos s.o) htxb htxlen hcap
      (by rw [hhm]; decide) (by rw [hhm]; decide)]
    rw [hhm]
    rw [show (cstr RX_BUFFER_OVERFLOW).getD 0 0 = RX_BUFFER_OVERFLOW.headD 0 from by decide]

/-- C3 (witness for the amended theorem): a fresh receiver whose inbound
buffer index has reached capacity, with an empty queue and write capacity
one, writes the first byte of the overflow notice in the same tick. -/
theorem C3_amended_witness :
    (txrx { init0 false with i := 64 } ⟨[], 1, []⟩).2.1.written
      = [] ++ [RX_BUFFER_OVERFLOW.headD 0] :=
  (C3_amended { init0 false with i := 64 } ⟨[], 1, []⟩).2 rfl rfl rfl
    (by decide) (by decide)

/-! ### C4: the TX pump byte rule and dequeue timing -/

/-- Modelled from the spec, section 4.3 `pumpOneByte`: with
`remaining = total - offset`, checksum mode sends `checksum(payload)` when
`remaining = 3`, `TERM_A` when `remaining = 2`, `TERM_B` when
`remaining = 1` and `payload[offset]` otherwise; without checksums the
`remaining = 3` case is absent. -/
def specSelByte (mode : Bool) (payload : List Nat) (offset total : Nat) : Nat :=
  if mode then
    if total - offset = 3 then checkSum payload
    else if total - offset = 2 then MSG_END_A
    else if total - offset = 1 then MSG_END_B
    else payload.getD offset 0
  else
    if total - offset = 2 then MSG_END_A
    else if total - offset = 1 then MSG_END_B
    else payload.getD offset 0

/-- The code's byte selection agrees with the byte-selection rule of the
spec whenever a byte remains to send. -/
theorem txByte_eq_spec (s : State) (h : s.txb < s.txlen) :
    txByte s = some (specSelByte s.useChecksum (cstr (headMsg s)) s.txb s.txlen) := by
  unfold txByte specSelByte
  dsimp only
  cases hm : s.useChecksum with
  | false =>
    simp only [Bool.false_eq_true, if_false]
    by_cases h2 : s.txlen - s.txb = 2
    · rw [if_pos (by omega : s.txlen - s.txb ≤ 2), if_pos h2, if_pos h2]
    · by_cases h1 : s.txlen - s.txb = 1
      · rw [if_pos (by omega : s.txlen - s.txb ≤ 2), if_neg h2, if_pos h1, if_neg h2,
          if_pos h1]
      · rw [if_neg (by omega : ¬ s.txlen - s.txb ≤ 2), if_neg h2, if_neg h1]
  | true =>
    simp only [if_true]
    by_cases h3 : s.txlen - s.txb = 3
    · rw [if_pos (by omega : s.txlen - s.txb ≤ 3), if_pos h3, if_pos h3]
    · by_cases h2 : s.txlen - s.txb = 2
      · rw [if_pos (by omega : s.txlen - s.txb ≤ 3), if_neg h3, if_pos h2, if_neg h3,
          if_pos h2]
      · by_cases h1 : s.txlen - s.txb = 1
        · rw [if_pos (by omega : s.txlen - s.txb ≤ 3), if_neg h3, if_neg h2, if_pos h1,
            if_neg h3, if_neg h2, if_pos h1]
        · rw [if_neg (by omega : ¬ s.txlen - s.txb ≤ 3), if_neg h3, if_neg h2, if_neg h1]

theorem mem_dequeueShiftReads (j o : Nat) : j ∈ dequeueShiftReads o ↔ 1 ≤ j ∧ j ≤ o := by
  simp only [dequeueShiftReads, List.mem_map, List.mem_range]
  constructor
  · rintro ⟨m, hm, rfl⟩
    omega
  · rintro ⟨h1, h2⟩
    exact ⟨j - 1, by omega, by omega⟩

/-- C4 (corrected, amended claim): in a call of the TX pump with a nonempty
queue and write capacity, if the head entry still has bytes to send
(`offset < total` after the cursor initialisation `txStart`), exactly one
byte — the one given by the remaining-count rule `specSelByte` — is written
and the offset is incremented, with no dequeue in that call; if instead
`offset = total` (head entry fully transmitted), the call writes no byte
and instead dequeues the head entry: size decreases by one, every remaining
entry position takes the pointer of the position one above it, and the
cursor resets to `(0, 0)`.  The dequeue thus happens in the first pump call
after the one that wrote the final byte, not in the same call. -/
theorem C4_amended (s : State) (ch : Channel) (ho : 0 < s.o) (hcap : 0 < ch.txCap) :
    ((txStart s).txb < (txStart s).txlen →
      (txPhase s ch).2.written
          = ch.written ++ [specSelByte (txStart s).useChecksum (cstr (headMsg (txStart s)))
              (txStart s).txb (txStart s).txlen] ∧
      (txPhase s ch).1.txb = (txStart s).txb + 1 ∧
      (txPhase s ch).1.txlen = (txStart s).txlen ∧
      (txPhase s ch).1.o = s.o) ∧
    (¬ (txStart s).txb < (txStart s).txlen →
      (txPhase s ch).2.written = ch.written ∧
      (txPhase s ch).1.o = s.o - 1 ∧
      (txPhase s ch).1.txb = 0 ∧ (txPhase s ch).1.txlen = 0 ∧
      (∀ k, k + 1 ≤ s.o → (txPhase s ch).1.out k = s.out (k + 1))) := by
  constructor
  · intro hlt
    unfold txPhase
    dsimp only
    rw [if_pos ho, if_pos hlt, if_pos hcap]
    refine ⟨?_, rfl, rfl, ?_⟩
    · rw [txByte_eq_spec _ hlt]
      rfl
    · show (txStart s).o = s.o
      exact txStart_o s
  · intro hge
    unfold txPhase
    dsimp only
    rw [if_pos ho, if_neg hge]
    refine ⟨rfl, ?_, rfl, rfl, ?_⟩
    · show (txStart s).o - 1 = s.o - 1
      rw [txStart_o]
    · intro k hk
      show (if k + 1 ∈ dequeueShiftReads (txStart s).o then (txStart s).out (k + 1)
          else (txStart s).out k) = s.out (k + 1)
      rw [if_pos ((mem_dequeueShiftReads _ _).mpr ⟨by omega, by rw [txStart_o]; omega⟩)]
      rw [txStart_out]

/-- C4 (witness for the amended theorem): a fresh object with one queued
empty message, pumped once with write capacity: the single written byte is
the one the remaining-count rule selects (here `TERM_A`). -/
theorem C4_amended_witness :
    (txPhase (sendMsg (init0 false) []).1 ⟨[], 1, []⟩).2.written = [MSG_END_A] := by
  have h := (C4_amended (sendMsg (init0 false) []).1 ⟨[], 1, []⟩
    (by decide) (by decide)).1 (by decide)
  rw [h.1]
  decide

/-! ### C6: the bad-checksum diagnostic path -/

theorem sendMsg_o_of (s : State) (m : List Nat) (ho : s.o < TX_QUEUE_SIZE)
    (hl : (cstr m).length % 256 < BUFFER_SIZE) : (sendMsg s m).1.o = s.o + 1 := by
  rw [sendMsg_success s m ho hl]

theorem sendMsg_out_of (s : State) (m : List Nat) (ho : s.o < TX_QUEUE_SIZE)
    (hl : (cstr m).length % 256 < BUFFER_SIZE) (j : Nat) :
    (sendMsg s m).1.out j = if j = s.o then s.obi else s.out j := by
  rw [sendMsg_success s m ho hl]
  rfl

theorem sendMsg_ob_of (s : State) (m : List Nat) (ho : s.o < TX_QUEUE_SIZE)
    (hl : (cstr m).length % 256 < BUFFER_SIZE) (k : Nat) :
    (sendMsg s m).1.ob k
      = if k = s.obi then (cstr m).take (BUFFER_SIZE - 1) else s.ob k := by
  rw [sendMsg_success s m ho hl]

theorem sendMsg_obi_of (s : State) (m : List Nat) (ho : s.o < TX_QUEUE_SIZE)
    (hl : (cstr m).length % 256 < BUFFER_SIZE) :
    (sendMsg s m).1.obi = if s.obi < TX_QUEUE_SIZE - 1 then s.obi + 1 else 0 := by
  rw [sendMsg_success s m ho hl]

/-- Effect of three consecutive successful `sendMsg` calls on a queue with
at least three free positions: the three messages occupy positions
`o`, `o + 1`, `o + 2` in order (each copied into its own round-robin slot),
and nothing else observable changes. -/
theorem sendMsg3_entries (t : State) (m1 m2 m3 : List Nat)
    (ho : t.o + 3 ≤ TX_QUEUE_SIZE)
    (h1 : (cstr m1).length % 256 < BUFFER_SIZE)
    (h2 : (cstr m2).length % 256 < BUFFER_SIZE)
    (h3 : (cstr m3).length % 256 < BUFFER_SIZE) :
    (sendMsg (sendMsg (sendMsg t m1).1 m2).1 m3).1.o = t.o + 3 ∧
    (sendMsg (sendMsg (sendMsg t m1).1 m2).1 m3).1.ob
        ((sendMsg (sendMsg (sendMsg t m1).1 m2).1 m3).1.out t.o)
      = (cstr m1).take (BUFFER_SIZE - 1) ∧
    (sendMsg (sendMsg (sendMsg t m1).1 m2).1 m3).1.ob
        ((sendMsg (sendMsg (sendMsg t m1).1 m2).1 m3).1.out (t.o + 1))
      = (cstr m2).take (BUFFER_SIZE - 1) ∧
    (sendMsg (sendMsg (sendMsg t m1).1 m2).1 m3).1.ob
        ((sendMsg (sendMsg (sendMsg t m1).1 m2).1 m3).1.out (t.o + 2))
      = (cstr m3).take (BUFFER_SIZE - 1) ∧
    (sendMsg (sendMsg (sendMsg t m1).1 m2).1 m3).1.rx = t.rx ∧
    (sendMsg (sendMsg (sendMsg t m1).1 m2).1 m3).1.delivered = t.delivered ∧
    (sendMsg (sendMsg (sendMsg t m1).1 m2).1 m3).1.msg = t.msg ∧
    (sendMsg (sendMsg (sendMsg t m1).1 m2).1 m3).1.i = t.i := by
  have hQ : TX_QUEUE_SIZE = 4 := rfl
  have ho1 : t.o < TX_QUEUE_SIZE := by omega
  have eo1 : (sendMsg t m1).1.o = t.o + 1 := sendMsg_o_of t m1 ho1 h1
  have ho2 : (sendMsg t m1).1.o < TX_QUEUE_SIZE := by omega
  have eo2 : (sendMsg (sendMsg t m1).1 m2).1.o = t.o + 2 := by
    rw [sendMsg_o_of _ m2 ho2 h2, eo1]
  have ho3 : (sendMsg (sendMsg t m1).1 m2).1.o < TX_QUEUE_SIZE := by omega
  have eo3 : (sendMsg (sendMsg (sendMsg t m1).1 m2).1 m3).1.o = t.o + 3 := by
    rw [sendMsg_o_of _ m3 ho3 h3, eo2]
  have eb1 : (sendMsg t m1).1.obi
      = if t.obi < TX_QUEUE_SIZE - 1 then t.obi + 1 else 0 := sendMsg_obi_of t m1 ho1 h1
  have eb2 : (sendMsg (sendMsg t m1).1 m2).1.obi
      = if (sendMsg t m1).1.obi < TX_QUEUE_SIZE - 1 then (sendMsg t m1).1.obi + 1 else 0 :=
    sendMsg_obi_of _ m2 ho2 h2
  have hd1 : t.obi ≠ (sendMsg t m1).1.obi := by
    rw [eb1]; split <;> omega
  have hd2 : t.obi ≠ (sendMsg (sendMsg t m1).1 m2).1.obi := by
    rw [eb2, eb1]
    split
    · split <;> omega
    · split <;> omega
  have hd3 : (sendMsg t m1).1.obi ≠ (sendMsg (sendMsg t m1).1 m2).1.obi := by
    rw [eb2]; split <;> omega
  refine ⟨eo3, ?_, ?_, ?_, ?_, ?_, ?_, ?_⟩
  · rw [sendMsg_out_of _ m3 ho3 h3, if_neg (by omega),
      sendMsg_out_of _ m2 ho2 h2, if_neg (by omega),
      sendMsg_out_of _ m1 ho1 h1, if_pos rfl,
      sendMsg_ob_of _ m3 ho3 h3, if_neg hd2,
      sendMsg_ob_of _ m2 ho2 h2, if_neg hd1,
      sendMsg_ob_of _ m1 ho1 h1, if_pos rfl]
  · rw [sendMsg_out_of _ m3 ho3 h3, if_neg (by omega),
      sendMsg_out_of _ m2 ho2 h2, if_pos (by omega),
      sendMsg_ob_of _ m3 ho3 h3, if_neg hd3,
      sendMsg_ob_of _ m2 ho2 h2, if_pos rfl]
  · rw [sendMsg_out_of _ m3 ho3 h3, if_pos (by omega),
      sendMsg_ob_of _ m3 ho3 h3, if_pos rfl]
  · rw [sendMsg_rx, sendMsg_rx, sendMsg_rx]
  · rw [sendMsg_delivered, sendMsg_delivered, sendMsg_delivered]
  · rw [sendMsg_msg, sendMsg_msg, sendMsg_msg]
  · rw [sendMsg_i, sendMsg_i, sendMsg_i]

theorem readBuf_length (f : Nat → Nat) (n : Nat) : (readBuf f n).length = n := by
  simp [readBuf]

/-- The payload the checksummed receive branch extracts from the inbound
buffer: the first `_i - 2` cells read as a C string (fastcomms.cpp lines
146-156). -/
def dataOf (s : State) : List Nat := cstr (readBuf s.inBuf (s.i - 2))

theorem dataOf_length_le (s : State) : (dataOf s).length ≤ s.i - 2 := by
  calc (dataOf s).length ≤ (readBuf s.inBuf (s.i - 2)).length := cstr_sublist _
  _ = s.i - 2 := readBuf_length _ _

/-- C6 (corrected, amended claim): when the receive path finds a
checksummed frame whose received checksum byte differs from the recomputed
checksum of its payload, and the outbound queue has at least three free
positions, the message is discarded (handler not invoked, message-ready
flag unchanged, message buffer unchanged) and exactly three diagnostics are
enqueued in order: the fixed bad-checksum notice — which is itself
`!`-prefixed — then the literal payload prefixed with `!`, then the textual
report of the received checksum value prefixed with `!`. -/
theorem C6_amended (s : State) (ch : Channel) (b : Nat) (rest : List Nat)
    (hin : ch.inbox = b :: rest)
    (hi64 : s.i < BUFFER_SIZE) (hi0 : 0 < s.i) (hb : b = MSG_END_B)
    (hprev : s.inBuf (s.i - 1) = MSG_END_A)
    (hmode : s.useChecksum = true) (hi2 : 2 < s.i)
    (hsum : s.inBuf (s.i - 2) ≠ checkSum (dataOf s))
    (hbyte : s.inBuf (s.i - 2) ≤ 255)
    (hroom : s.o + 3 ≤ TX_QUEUE_SIZE) :
    (rxPhase s ch).1.o = s.o + 3 ∧
    (rxPhase s ch).1.ob ((rxPhase s ch).1.out s.o) = RX_BAD_CHECKSUM ∧
    (rxPhase s ch).1.ob ((rxPhase s ch).1.out (s.o + 1)) = 33 :: dataOf s ∧
    (rxPhase s ch).1.ob ((rxPhase s ch).1.out (s.o + 2)) = gotText (s.inBuf (s.i - 2)) ∧
    (rxPhase s ch).1.rx = s.rx ∧
    (rxPhase s ch).1.delivered = s.delivered ∧
    (rxPhase s ch).1.msg = s.msg ∧
    (rxPhase s ch).1.i = 0 := by
  have hB : BUFFER_SIZE = 64 := rfl
  obtain ⟨inbox, cap, w⟩ := ch
  dsimp only at hin
  subst hin
  unfold rxPhase
  dsimp only
  rw [if_pos hi64]
  rw [if_pos (show 0 < s.i ∧ b = MSG_END_B from ⟨hi0, hb⟩)]
  rw [if_pos (show writeCell s.inBuf s.i b (s.i - 1) = MSG_END_A from
    (writeCell_ne s.inBuf s.i b (s.i - 1) (by omega)).trans hprev)]
  rw [if_pos (show s.useChecksum = true ∧ 2 < s.i from ⟨hmode, hi2⟩)]
  have e1 : writeCell s.inBuf s.i b (s.i - 2) = s.inBuf (s.i - 2) :=
    writeCell_ne s.inBuf s.i b (s.i - 2) (by omega)
  have e2 : readBuf (writeCell (writeCell s.inBuf s.i b) (s.i - 2) 0) (s.i - 2)
      = readBuf s.inBuf (s.i - 2) := by
    rw [readBuf_writeCell_ge _ _ _ _ (Nat.le_refl _)]
    exact readBuf_writeCell_ge _ _ _ _ (by omega)
  rw [e1, e2]
  unfold dataOf at hsum
  rw [if_neg hsum]
  have hcs33 : cstr (33 :: cstr (readBuf s.inBuf (s.i - 2)))
      = 33 :: cstr (readBuf s.inBuf (s.i - 2)) := by
    apply cstr_eq_self
    intro x hx
    rcases List.mem_cons.mp hx with rfl | hx
    · decide
    · exact cstr_no_zero _ x hx
  have hdlen : (cstr (readBuf s.inBuf (s.i - 2))).length ≤ 61 := by
    have h1 := dataOf_length_le s
    unfold dataOf at h1
    omega
  have hM : (cstr (33 :: cstr (readBuf s.inBuf (s.i - 2)))).length % 256 < BUFFER_SIZE := by
    rw [hcs33]
    simp only [List.length_cons]
    rw [Nat.mod_eq_of_lt (by omega)]
    omega
  have hcsgot : cstr (gotText (s.inBuf (s.i - 2))) = gotText (s.inBuf (s.i - 2)) :=
    cstr_eq_self _ (gotText_no_zero _)
  have hS : (cstr (gotText (s.inBuf (s.i - 2)))).length % 256 < BUFFER_SIZE := by
    rw [hcsgot]
    have := gotText_length_le (s.inBuf (s.i - 2)) hbyte
    rw [Nat.mod_eq_of_lt (by omega)]
    omega
  have H := sendMsg3_entries
    { s with inBuf := writeCell (writeCell s.inBuf s.i b) (s.i - 2) 0 }
    RX_BAD_CHECKSUM (33 :: cstr (readBuf s.inBuf (s.i - 2)))
    (gotText (s.inBuf (s.i - 2))) hroom (by decide) hM hS
  refine ⟨H.1, H.2.1.trans (by decide), ?_, ?_, H.2.2.2.2.1, H.2.2.2.2.2.1,
    H.2.2.2.2.2.2.1, rfl⟩
  · refine H.2.2.1.trans ?_
    rw [hcs33]
    exact List.take_of_length_le (by simp only [List.length_cons]; omega)
  · refine H.2.2.2.1.trans ?_
    rw [hcsgot]
    apply List.take_of_length_le
    have := gotText_length_le (s.inBuf (s.i - 2)) hbyte
    omega

/-- A receiver state about to finish the frame `"ab"`-with-checksum-0: four
bytes 97, 98, 0, 13 already buffered, index 4 ("ab", wrong checksum 0,
first terminator byte). -/
def c6state : State :=
  { init0 true with
      i := 4,
      inBuf := fun k =>
        if k = 0 then 97 else if k = 1 then 98 else if k = 2 then 0 else
        if k = 3 then 13 else 0 }

/-- C6 (witness for the amended theorem): feeding the final terminator byte
to `c6state` enqueues the three diagnostics, the first being the fixed
bad-checksum notice. -/
theorem C6_amended_witness :
    (rxPhase c6state ⟨[10], 0, []⟩).1.o = c6state.o + 3 ∧
    (rxPhase c6state ⟨[10], 0, []⟩).1.ob
        ((rxPhase c6state ⟨[10], 0, []⟩).1.out c6state.o) = RX_BAD_CHECKSUM ∧
    (rxPhase c6state ⟨[10], 0, []⟩).1.delivered = c6state.delivered :=
  ⟨(C6_amended c6state ⟨[10], 0, []⟩ 10 [] rfl (by decide) (by decide) rfl (by decide)
      rfl (by decide) (by decide) (by decide) (by decide)).1,
   (C6_amended c6state ⟨[10], 0, []⟩ 10 [] rfl (by decide) (by decide) rfl (by decide)
      rfl (by decide) (by decide) (by decide) (by decide)).2.1,
   (C6_amended c6state ⟨[10], 0, []⟩ 10 [] rfl (by decide) (by decide) rfl (by decide)
      rfl (by decide) (by decide) (by decide) (by decide)).2.2.2.2.2.1⟩

/-! ### C7: inbound index bounds over all reachable states -/

theorem rxPhase_i_le (s : State) (ch : Channel) : (rxPhase s ch).1.i ≤ BUFFER_SIZE := by
  unfold rxPhase
  dsimp only
  repeat' split
  all_goals simp_all [sendMsg_i]
  all_goals omega

theorem rxPhase_inBuf_high (s : State) (ch : Channel) :
    ∀ k, BUFFER_SIZE ≤ k → (rxPhase s ch).1.inBuf k = s.inBuf k := by
  intro k hk
  unfold rxPhase
  dsimp only
  repeat' split
  all_goals (try dsimp only [deliver])
  all_goals (try rw [sendMsg_inBuf, sendMsg_inBuf, sendMsg_inBuf])
  all_goals (try rw [sendMsg_inBuf])
  all_goals (try dsimp only)
  all_goals first
    | rfl
    | (rw [writeCell_ne _ _ _ _ (by omega), writeCell_ne _ _ _ _ (by omega)])
    | (rw [writeCell_ne _ _ _ _ (by omega)])

theorem txrx_i (s : State) (ch : Channel) :
    (txrx s ch).1.i = (txPhase (rxPhase s ch).1 (rxPhase s ch).2).1.i := by
  unfold txrx
  dsimp only
  split <;> rfl

theorem txrx_inBuf (s : State) (ch : Channel) :
    (txrx s ch).1.inBuf = (txPhase (rxPhase s ch).1 (rxPhase s ch).2).1.inBuf := by
  unfold txrx
  dsimp only
  split <;> rfl

/-- One externally-triggered operation on a `FastComms` object: a tick with
an arbitrary channel, a `sendMsg` with an arbitrary message, a
`setMsgHandler` (which replaces the handler registration), or a `getMsg`
(which reads the message buffer and changes nothing). -/
inductive Step (s : State) : State → Prop where
  | tick (ch : Channel) : Step s (txrx s ch).1
  | send (m : List Nat) : Step s (sendMsg s m).1
  | setHandler (hset : Bool) : Step s { s with handlerSet := hset }
  | getMsg : Step s s

/-- States reachable from `s0` by any sequence of operations. -/
inductive Reachable (s0 : State) : State → Prop where
  | refl : Reachable s0 s0
  | step {s1 s2 : State} : Reachable s0 s1 → Step s1 s2 → Reachable s0 s2

theorem Reachable.head {s0 s1 s : State} (h : Step s0 s1) (hr : Reachable s1 s) :
    Reachable s0 s := by
  induction hr with
  | refl => exact Reachable.step Reachable.refl h
  | step hp hs ih => exact Reachable.step ih hs

theorem runTicks_reachable (s : State) (ch : Channel) (n : Nat) :
    Reachable s (runTicks s ch n).1 := by
  induction n generalizing s ch with
  | zero => exact Reachable.refl
  | succ n ih =>
    exact Reachable.head (Step.tick ch) (ih (txrx s ch).1 (txrx s ch).2.1)

theorem step_i_le {s1 s2 : State} (hs : Step s1 s2) (h : s1.i ≤ BUFFER_SIZE) :
    s2.i ≤ BUFFER_SIZE := by
  cases hs with
  | tick ch => rw [txrx_i, txPhase_i]; exact rxPhase_i_le s1 ch
  | send m => rw [sendMsg_i]; exact h
  | setHandler hset => exact h
  | getMsg => exact h

theorem step_inBuf_high {s1 s2 : State} (hs : Step s1 s2) :
    ∀ k, BUFFER_SIZE ≤ k → s2.inBuf k = s1.inBuf k := by
  intro k hk
  cases hs with
  | tick ch =>
    rw [txrx_inBuf, txPhase_inBuf]
    exact rxPhase_inBuf_high s1 ch k hk
  | send m => rw [sendMsg_inBuf]
  | setHandler hset => rfl
  | getMsg => rfl

/-- C7 (corrected, amended claim): in every state reachable by any sequence
of tick, sendMsg, setMsgHandler and getMsg operations from an initial state
with index zero, the inbound buffer write index satisfies
`0 ≤ i ≤ BUFFER_SIZE` — the value `i = BUFFER_SIZE` is reachable and
persists between ticks — and no byte is ever written to the inbound buffer
at an index at or beyond `BUFFER_SIZE` (every cell at such an index keeps
its initial value forever). -/
theorem C7_amended (s0 s : State) (h0 : s0.i = 0) (hr : Reachable s0 s) :
    s.i ≤ BUFFER_SIZE ∧ ∀ k, BUFFER_SIZE ≤ k → s.inBuf k = s0.inBuf k := by
  induction hr with
  | refl => exact ⟨by omega, fun k _ => rfl⟩
  | step hpath hstep ih =>
    exact ⟨step_i_le hstep ih.1,
      fun k hk => (step_inBuf_high hstep k hk).trans (ih.2 k hk)⟩

/-- C7 (witness for the amended theorem): one tick from a fresh object
keeps the index within the bound. -/
theorem C7_amended_witness :
    (txrx (init0 false) ⟨[65], 0, []⟩).1.i ≤ BUFFER_SIZE :=
  (C7_amended (init0 false) (txrx (init0 false) ⟨[65], 0, []⟩).1 rfl
    (Reachable.step Reachable.refl (Step.tick ⟨[65], 0, []⟩))).1

/-- The state of a fresh receiver after 64 ticks each consuming one byte of
a 64-byte terminator-free inbound sequence. -/
def c7state : State := (runTicks (init0 false) ⟨List.replicate 64 97, 0, []⟩ 64).1

set_option maxRecDepth 10000 in
/-- C7 (counterexample): after 64 ticks feeding 64 terminator-free bytes,
the reachable state `c7state` has `i = BUFFER_SIZE = C`, so `i < C` does
not hold in every reachable state (the overflow reset happens only on the
following tick). -/
theorem C7_counterexample_index_reaches_C :
    Reachable (init0 false) c7state ∧ c7state.i = BUFFER_SIZE ∧
    ¬ c7state.i < BUFFER_SIZE :=
  ⟨runTicks_reachable _ _ _, by decide, by decide⟩

/-! ### C8: buffer overflow handling -/

/-- No frame boundary is found while feeding these bytes one at a time:
`p` is the byte stored just before the next one (`none` at index 0), and a
boundary would need a stored `MSG_END_A` immediately followed by an
arriving `MSG_END_B`. -/
def chainOk : Option Nat → List Nat → Bool
  | _, [] => true
  | p, b :: t => if p = some MSG_END_A ∧ b = MSG_END_B then false else chainOk (some b) t

/-- The byte stored just below the write index, if any. -/
def prevOf (s : State) : Option Nat :=
  if s.i = 0 then none else some (s.inBuf (s.i - 1))

theorem chainOk_cons {p : Option Nat} {b : Nat} {t : List Nat}
    (h : chainOk p (b :: t) = true) :
    ¬ (p = some MSG_END_A ∧ b = MSG_END_B) ∧ chainOk (some b) t = true := by
  by_cases hc : p = some MSG_END_A ∧ b = MSG_END_B
  · rw [chainOk, if_pos hc] at h
    exact absurd h (by decide)
  · rw [chainOk, if_neg hc] at h
    exact ⟨hc, h⟩

/-- Writing a list of bytes into consecutive cells starting at `k`. -/
def writeList (f : Nat → Nat) (k : Nat) : List Nat → (Nat → Nat)
  | [] => f
  | b :: t => writeList (writeCell f k b) (k + 1) t

theorem writeList_ge (bs : List Nat) :
    ∀ (f : Nat → Nat) (k0 k : Nat), k0 + bs.length ≤ k → writeList f k0 bs k = f k := by
  induction bs with
  | nil => intro f k0 k h; rfl
  | cons b t ih =>
    intro f k0 k h
    simp only [List.length_cons] at h
    rw [writeList, ih _ _ _ (by omega), writeCell_ne _ _ _ _ (by omega)]

/-- One tick of the RX section that stores a byte without finding a frame
boundary: the byte lands at the write index, the index advances, nothing
else changes, and the byte is consumed from the channel. -/
theorem rxPhase_step_no_boundary (s : State) (b : Nat) (rest : List Nat)
    (cap : Nat) (w : List Nat) (hi : s.i < BUFFER_SIZE)
    (hnb : ¬ (0 < s.i ∧ b = MSG_END_B ∧ s.inBuf (s.i - 1) = MSG_END_A)) :
    rxPhase s ⟨b :: rest, cap, w⟩
      = ({ s with inBuf := writeCell s.inBuf s.i b, i := s.i + 1 },
         ⟨rest, cap, w⟩) := by
  unfold rxPhase
  dsimp only
  rw [if_pos hi]
  by_cases h1 : 0 < s.i ∧ b = MSG_END_B
  · rw [if_pos h1]
    have hne : writeCell s.inBuf s.i b (s.i - 1) = s.inBuf (s.i - 1) :=
      writeCell_ne _ _ _ _ (by omega)
    rw [if_neg (fun hA => hnb ⟨h1.1, h1.2, hne.symm.trans hA⟩)]
  · rw [if_neg h1]

theorem txPhase_queue_empty (s : State) (ch : Channel) (h : s.o = 0) :
    txPhase s ch = (s, ch) := by
  unfold txPhase
  rw [if_neg (by omega)]

theorem txrx_of_rx_false (s : State) (ch : Channel)
    (h : (txPhase (rxPhase s ch).1 (rxPhase s ch).2).1.rx = false) :
    txrx s ch = ((txPhase (rxPhase s ch).1 (rxPhase s ch).2).1,
      (txPhase (rxPhase s ch).1 (rxPhase s ch).2).2, false) := by
  unfold txrx
  dsimp only
  rw [h]
  rfl

/-- Feeding a boundary-free byte sequence one byte per tick into a state
with an empty queue and a lowered message flag: the bytes land in
consecutive buffer cells, the index advances by the sequence length, and
nothing else changes. -/
theorem runTicks_feed (bs : List Nat) :
    ∀ (s : State) (rest : List Nat) (cap : Nat) (w : List Nat),
    s.i + bs.length ≤ BUFFER_SIZE → s.o = 0 → s.rx = false →
    chainOk (prevOf s) bs = true →
    runTicks s ⟨bs ++ rest, cap, w⟩ bs.length
      = ({ s with inBuf := writeList s.inBuf s.i bs, i := s.i + bs.length },
         ⟨rest, cap, w⟩) := by
  induction bs with
  | nil =>
    intro s rest cap w hle ho hrx hchain
    rfl
  | cons b t ih =>
    intro s rest cap w hle ho hrx hchain
    obtain ⟨hc1, hc2⟩ := chainOk_cons hchain
    have hi : s.i < BUFFER_SIZE := by
      simp only [List.length_cons] at hle
      omega
    have hnb : ¬ (0 < s.i ∧ b = MSG_END_B ∧ s.inBuf (s.i - 1) = MSG_END_A) := by
      rintro ⟨hp, hbB, hA⟩
      exact hc1 ⟨by rw [prevOf, if_neg (by omega), hA], hbB⟩
    have hrxeq : rxPhase s ⟨b :: t ++ rest, cap, w⟩
        = ({ s with inBuf := writeCell s.inBuf s.i b, i := s.i + 1 },
           (⟨t ++ rest, cap, w⟩ : Channel)) :=
      rxPhase_step_no_boundary s b (t ++ rest) cap w hi hnb
    have htx := txPhase_queue_empty
      ({ s with inBuf := writeCell s.inBuf s.i b, i := s.i + 1 })
      (⟨t ++ rest, cap, w⟩ : Channel) (by show s.o = 0; exact ho)
    have hstep : txrx s ⟨b :: t ++ rest, cap, w⟩
        = (({ s with inBuf := writeCell s.inBuf s.i b, i := s.i + 1 } : State),
           (⟨t ++ rest, cap, w⟩ : Channel), false) := by
      rw [txrx_of_rx_false s _ (by rw [hrxeq, htx]; exact hrx), hrxeq, htx]
    show runTicks _ _ (t.length + 1) = _
    rw [runTicks]
    try dsimp only
    rw [hstep]
    try dsimp only
    rw [ih ({ s with inBuf := writeCell s.inBuf s.i b, i := s.i + 1 }) rest cap w
      (by show s.i + 1 + t.length ≤ BUFFER_SIZE
          simp only [List.length_cons] at hle
          omega)
      (by show s.o = 0; exact ho) (by show s.rx = false; exact hrx)
      (by show chainOk (prevOf _) t = true
          rw [prevOf]
          dsimp only
          rw [if_neg (by omega), Nat.add_sub_cancel, writeCell_same]
          exact hc2)]
    have hieq : s.i + 1 + t.length = s.i + (t.length + 1) := by omega
    rw [show writeList (writeCell s.inBuf s.i b) (s.i + 1) t
        = writeList s.inBuf s.i (b :: t) from rfl]
    rw [hieq]
    rfl

theorem txPhase_no_dequeue (s : State) (ch : Channel)
    (h : (txStart s).txb < (txStart s).txlen) :
    (txPhase s ch).1.out = s.out ∧ (txPhase s ch).1.o = s.o := by
  unfold txPhase
  dsimp only
  by_cases ho : 0 < s.o
  · rw [if_pos ho, if_pos h]
    split
    · exact ⟨txStart_out s, txStart_o s⟩
    · exact ⟨txStart_out s, txStart_o s⟩
  · rw [if_neg ho]
    exact ⟨rfl, rfl⟩

/-- Effect of the overflow branch's `sendMsg(RX_BUFFER_OVERFLOW)` from a
state with an empty queue (fastcomms.cpp lines 222-229). -/
theorem sendOverflow_facts (t : State) (ho : t.o = 0) :
    (sendMsg { t with i := 0 } RX_BUFFER_OVERFLOW).1.o = 1 ∧
    (sendMsg { t with i := 0 } RX_BUFFER_OVERFLOW).1.i = 0 ∧
    (sendMsg { t with i := 0 } RX_BUFFER_OVERFLOW).1.txb = t.txb ∧
    (sendMsg { t with i := 0 } RX_BUFFER_OVERFLOW).1.txlen = t.txlen ∧
    (sendMsg { t with i := 0 } RX_BUFFER_OVERFLOW).1.useChecksum = t.useChecksum ∧
    (sendMsg { t with i := 0 } RX_BUFFER_OVERFLOW).1.delivered = t.delivered ∧
    (sendMsg { t with i := 0 } RX_BUFFER_OVERFLOW).1.rx = t.rx ∧
    headMsg (sendMsg { t with i := 0 } RX_BUFFER_OVERFLOW).1 = RX_BUFFER_OVERFLOW ∧
    (sendMsg { t with i := 0 } RX_BUFFER_OVERFLOW).1.inBuf = t.inBuf := by
  have h1 : ({ t with i := 0 } : State).o < TX_QUEUE_SIZE := by
    show t.o < TX_QUEUE_SIZE
    rw [ho]
    decide
  have h2 : (cstr RX_BUFFER_OVERFLOW).length % 256 < BUFFER_SIZE := by decide
  rw [sendMsg_success _ _ h1 h2]
  refine ⟨by show t.o + 1 = 1; omega, rfl, rfl, rfl, rfl, rfl, rfl, ?_, rfl⟩
  unfold headMsg
  dsimp only
  rw [show writeCell t.out t.o t.obi 0 = t.obi from (by
    unfold writeCell
    rw [if_pos (by omega : (0:Nat) = t.o)])]
  rw [if_pos rfl]
  decide

/-- C8 (corrected, amended claim): feeding `BUFFER_SIZE` bytes containing
no terminator pair into a fresh receiver (one byte per tick) leaves the
inbound index at `BUFFER_SIZE` with no diagnostic enqueued and no message
emitted; the overflow response happens on the next tick, which resets the
index to 0, enqueues exactly one fixed overflow-notice diagnostic (the
queue being empty), still emits no message, loses the buffered data, and
never writes the inbound buffer at an index at or beyond `BUFFER_SIZE`. -/
theorem C8_amended (mode : Bool) (bs : List Nat) (cap : Nat) (w : List Nat)
    (hlen : bs.length = BUFFER_SIZE) (hno : chainOk none bs = true) :
    (runTicks (init0 mode) ⟨bs, cap, w⟩ bs.length).1.i = BUFFER_SIZE ∧
    (runTicks (init0 mode) ⟨bs, cap, w⟩ bs.length).1.o = 0 ∧
    (runTicks (init0 mode) ⟨bs, cap, w⟩ bs.length).1.delivered = [] ∧
    (txrx (runTicks (init0 mode) ⟨bs, cap, w⟩ bs.length).1
        (runTicks (init0 mode) ⟨bs, cap, w⟩ bs.length).2).1.i = 0 ∧
    (txrx (runTicks (init0 mode) ⟨bs, cap, w⟩ bs.length).1
        (runTicks (init0 mode) ⟨bs, cap, w⟩ bs.length).2).1.o = 1 ∧
    (txrx (runTicks (init0 mode) ⟨bs, cap, w⟩ bs.length).1
        (runTicks (init0 mode) ⟨bs, cap, w⟩ bs.length).2).1.ob
      ((txrx (runTicks (init0 mode) ⟨bs, cap, w⟩ bs.length).1
        (runTicks (init0 mode) ⟨bs, cap, w⟩ bs.length).2).1.out 0)
      = RX_BUFFER_OVERFLOW ∧
    (txrx (runTicks (init0 mode) ⟨bs, cap, w⟩ bs.length).1
        (runTicks (init0 mode) ⟨bs, cap, w⟩ bs.length).2).1.delivered = [] ∧
    (∀ k, BUFFER_SIZE ≤ k →
      (txrx (runTicks (init0 mode) ⟨bs, cap, w⟩ bs.length).1
        (runTicks (init0 mode) ⟨bs, cap, w⟩ bs.length).2).1.inBuf k = 0) := by
  have hfeed := runTicks_feed bs (init0 mode) [] cap w
    (by show (0:Nat) + bs.length ≤ BUFFER_SIZE; omega) rfl rfl
    (by show chainOk (prevOf (init0 mode)) bs = true; exact hno)
  rw [List.append_nil] at hfeed
  rw [hfeed]
  have hFi : ¬ (({ init0 mode with
      inBuf := writeList (init0 mode).inBuf (init0 mode).i bs,
      i := (init0 mode).i + bs.length } : State).i < BUFFER_SIZE) := by
    show ¬ (init0 mode).i + bs.length < BUFFER_SIZE
    show ¬ (0:Nat) + bs.length < BUFFER_SIZE
    omega
  have hrxeq : rxPhase
      ({ init0 mode with
          inBuf := writeList (init0 mode).inBuf (init0 mode).i bs,
          i := (init0 mode).i + bs.length } : State) (⟨[], cap, w⟩ : Channel)
      = ((sendMsg { ({ init0 mode with
          inBuf := writeList (init0 mode).inBuf (init0 mode).i bs,
          i := (init0 mode).i + bs.length } : State) with i := 0 }
            RX_BUFFER_OVERFLOW).1, (⟨[], cap, w⟩ : Channel)) := by
    unfold rxPhase
    rw [if_neg hFi]
  obtain ⟨so, si, stxb, stxlen, suse, sdel, srx, shm, sbuf⟩ := sendOverflow_facts
    ({ init0 mode with
        inBuf := writeList (init0 mode).inBuf (init0 mode).i bs,
        i := (init0 mode).i + bs.length } : State) rfl
  have hflow := txrx_of_rx_false
    ({ init0 mode with
        inBuf := writeList (init0 mode).inBuf (init0 mode).i bs,
        i := (init0 mode).i + bs.length } : State) (⟨[], cap, w⟩ : Channel)
    (by rw [hrxeq, txPhase_rx]; exact srx)
  rw [hrxeq] at hflow
  rw [hflow]
  have hcond : (txStart (sendMsg { ({ init0 mode with
      inBuf := writeList (init0 mode).inBuf (init0 mode).i bs,
      i := (init0 mode).i + bs.length } : State) with i := 0 }
        RX_BUFFER_OVERFLOW).1).txb
      < (txStart (sendMsg { ({ init0 mode with
      inBuf := writeList (init0 mode).inBuf (init0 mode).i bs,
      i := (init0 mode).i + bs.length } : State) with i := 0 }
        RX_BUFFER_OVERFLOW).1).txlen := by
    unfold txStart
    rw [if_pos ⟨stxb, stxlen⟩]
    dsimp only
    rw [stxb, shm, suse]
    show (0:Nat) < ((cstr RX_BUFFER_OVERFLOW).length + if mode then 3 else 2) % 256
    cases mode <;> decide
  obtain ⟨hout, hoq⟩ := txPhase_no_dequeue _ (⟨[], cap, w⟩ : Channel) hcond
  refine ⟨by show (0:Nat) + bs.length = BUFFER_SIZE; omega, rfl, rfl,
    ?_, ?_, ?_, ?_, ?_⟩
  · rw [txPhase_i]
    exact si
  · rw [hoq]
    exact so
  · rw [txPhase_ob, hout]
    exact shm
  · rw [txPhase_delivered]
    exact sdel
  · intro k hk
    rw [txPhase_inBuf, sbuf]
    show writeList (init0 mode).inBuf 0 bs k = 0
    rw [writeList_ge bs _ 0 k (by omega)]
    rfl

set_option maxRecDepth 10000 in
/-- C8 (witness for the amended theorem): 64 bytes 97 fed to a fresh
receiver, then one more tick: index reset and exactly one queued overflow
notice. -/
theorem C8_amended_witness :
    (txrx (runTicks (init0 false) ⟨List.replicate 64 97, 0, []⟩
          (List.replicate 64 97).length).1
        (runTicks (init0 false) ⟨List.replicate 64 97, 0, []⟩
          (List.replicate 64 97).length).2).1.o = 1 ∧
    (txrx (runTicks (init0 false) ⟨List.replicate 64 97, 0, []⟩
          (List.replicate 64 97).length).1
        (runTicks (init0 false) ⟨List.replicate 64 97, 0, []⟩
          (List.replicate 64 97).length).2).1.i = 0 :=
  ⟨(C8_amended false (List.replicate 64 97) 0 [] (by decide) (by decide)).2.2.2.2.1,
   (C8_amended false (List.replicate 64 97) 0 [] (by decide) (by decide)).2.2.2.1⟩

/-- The state of a fresh receiver after exactly 64 ticks, each consuming
one byte of a 64-byte terminator-free sequence. -/
def c8feed : State := (runTicks (init0 false) ⟨List.replicate 64 97, 0, []⟩ 64).1

set_option maxRecDepth 10000 in
/-- C8 (counterexample): feeding exactly `C = BUFFER_SIZE` terminator-free
bytes to the assembler leaves the index at `C`, not 0, and enqueues no
diagnostic at all — the reset and the overflow notice only happen on the
next tick, so the claim as stated (reset and one diagnostic upon feeding
the C bytes) fails. -/
theorem C8_counterexample_no_reset_in_same_tick :
    c8feed.i = BUFFER_SIZE ∧ ¬ c8feed.i = 0 ∧ c8feed.o = 0 ∧
    c8feed.delivered = [] := by
  decide

/-! ### C1: encode / decode roundtrip -/

/-- The wire frame for a payload: `Payload [Checksum] TERM_A TERM_B`
(spec section 6; produced byte by byte by the TX section). -/
def encodeFrame (mode : Bool) (P : List Nat) : List Nat :=
  P ++ (if mode then [checkSum P] else []) ++ [MSG_END_A, MSG_END_B]

theorem encodeFrame_length (mode : Bool) (P : List Nat) :
    (encodeFrame mode P).length = P.length + (if mode then 3 else 2) := by
  cases mode <;> simp [encodeFrame]

theorem rxPhase_empty (s : State) (cap : Nat) (w : List Nat) (hi : s.i < BUFFER_SIZE) :
    rxPhase s ⟨[], cap, w⟩ = (s, ⟨[], cap, w⟩) := by
  unfold rxPhase
  rw [if_pos hi]

theorem txStart_id (s : State) (h : s.txlen ≠ 0) : txStart s = s := by
  unfold txStart
  rw [if_neg (fun hc => h hc.2)]

/-- Position-by-position characterisation of the checksummed frame. -/
theorem encodeFrame_true_getD (M : List Nat) (j : Nat) :
    (encodeFrame true M).getD j 0
      = if j < M.length then M.getD j 0
        else if j = M.length then checkSum M
        else if j = M.length + 1 then MSG_END_A
        else if j = M.length + 2 then MSG_END_B else 0 := by
  unfold encodeFrame
  simp only [if_true]
  have hlen : (M ++ [checkSum M]).length = M.length + 1 := by simp
  by_cases h1 : j < M.length
  · rw [List.getD_append _ _ _ _ (by rw [hlen]; omega), List.getD_append _ _ _ _ h1,
      if_pos h1]
  · rw [if_neg h1]
    by_cases h2 : j = M.length
    · subst h2
      rw [List.getD_append _ _ _ _ (by rw [hlen]; omega),
        List.getD_append_right _ _ _ _ (Nat.le_refl _), Nat.sub_self, if_pos rfl]
      rfl
    · rw [if_neg h2, List.getD_append_right _ _ _ _ (by rw [hlen]; omega), hlen]
      by_cases h3 : j = M.length + 1
      · rw [if_pos h3, show j - (M.length + 1) = 0 from by omega]
        rfl
      · rw [if_neg h3]
        by_cases h4 : j = M.length + 2
        · rw [if_pos h4, show j - (M.length + 1) = 1 from by omega]
          rfl
        · rw [if_neg h4, show ([MSG_END_A, MSG_END_B] : List Nat).getD (j - (M.length + 1)) 0
              = ([MSG_END_A, MSG_END_B] : List Nat).getD (j - (M.length + 1)) 0 from rfl]
          exact List.getD_eq_default _ _ (by simp; omega)

/-- Position-by-position characterisation of the unchecksummed frame. -/
theorem encodeFrame_false_getD (M : List Nat) (j : Nat) :
    (encodeFrame false M).getD j 0
      = if j < M.length then M.getD j 0
        else if j = M.length then MSG_END_A
        else if j = M.length + 1 then MSG_END_B else 0 := by
  unfold encodeFrame
  simp only [Bool.false_eq_true, if_false, List.append_nil]
  by_cases h1 : j < M.length
  · rw [List.getD_append _ _ _ _ h1, if_pos h1]
  · rw [if_neg h1, List.getD_append_right _ _ _ _ (by omega)]
    by_cases h2 : j = M.length
    · rw [if_pos h2, show j - M.length = 0 from by omega]
      rfl
    · rw [if_neg h2]
      by_cases h3 : j = M.length + 1
      · rw [if_pos h3, show j - M.length = 1 from by omega]
        rfl
      · rw [if_neg h3]
        exact List.getD_eq_default _ _ (by simp; omega)

/-- While bytes remain, the TX byte selection produces exactly the next
byte of the encoded frame of the head entry. -/
theorem txByte_encode (s : State)
    (htx : s.txlen = (cstr (headMsg s)).length + (if s.useChecksum then 3 else 2))
    (hj : s.txb < s.txlen) :
    txByte s = some ((encodeFrame s.useChecksum (cstr (headMsg s))).getD s.txb 0) := by
  unfold txByte
  dsimp only
  cases hm : s.useChecksum with
  | true =>
    simp only [if_true]
    rw [hm] at htx
    simp only [if_true] at htx
    rcases (by omega : s.txb < (cstr (headMsg s)).length ∨
        s.txb = (cstr (headMsg s)).length ∨ s.txb = (cstr (headMsg s)).length + 1 ∨
        s.txb = (cstr (headMsg s)).length + 2) with hc | hc | hc | hc
    · rw [if_neg (by omega), encodeFrame_true_getD, if_pos hc]
    · rw [if_pos (by omega), if_pos (by omega), encodeFrame_true_getD, if_neg (by omega),
        if_pos hc]
    · rw [if_pos (by omega), if_neg (by omega), if_pos (by omega), encodeFrame_true_getD,
        if_neg (by omega), if_neg (by omega), if_pos hc]
    · rw [if_pos (by omega), if_neg (by omega), if_neg (by omega), if_pos (by omega),
        encodeFrame_true_getD, if_neg (by omega), if_neg (by omega), if_neg (by omega),
        if_pos hc]
  | false =>
    simp only [Bool.false_eq_true, if_false]
    rw [hm] at htx
    simp only [Bool.false_eq_true, if_false] at htx
    rcases (by omega : s.txb < (cstr (headMsg s)).length ∨
        s.txb = (cstr (headMsg s)).length ∨ s.txb = (cstr (headMsg s)).length + 1)
      with hc | hc | hc
    · rw [if_neg (by omega), encodeFrame_false_getD, if_pos hc]
    · rw [if_pos (by omega), if_pos (by omega), encodeFrame_false_getD, if_neg (by omega),
        if_pos hc]
    · rw [if_pos (by omega), if_neg (by omega), if_pos (by omega), encodeFrame_false_getD,
        if_neg (by omega), if_neg (by omega), if_pos hc]

theorem drop_getD_cons (l : List Nat) (j : Nat) (h : j < l.length) :
    l.drop j = l.getD j 0 :: l.drop (j + 1) := by
  rw [List.drop_eq_getElem_cons h, List.getD_eq_getElem _ _ h]

/-- Pumping the TX section `n` ticks (with inbound silence, write capacity,
and at least `n` bytes left to send) writes exactly the next `n` bytes of
the encoded frame of the head entry and advances the cursor by `n`. -/
theorem txPump_aux (n : Nat) :
    ∀ (s : State) (cap : Nat) (w : List Nat),
    s.i < BUFFER_SIZE → s.rx = false → 0 < s.o → 0 < cap →
    s.txb + n = s.txlen →
    s.txlen = (cstr (headMsg s)).length + (if s.useChecksum then 3 else 2) →
    runTicks s ⟨[], cap, w⟩ n
      = ({ s with txb := s.txb + n },
         ⟨[], cap, w ++ (encodeFrame s.useChecksum (cstr (headMsg s))).drop s.txb⟩) := by
  induction n with
  | zero =>
    intro s cap w hi hrx ho hcap hn htx
    show (s, _) = _
    rw [show (encodeFrame s.useChecksum (cstr (headMsg s))).drop s.txb = [] from
      List.drop_eq_nil_of_le (by rw [encodeFrame_length]; omega)]
    rw [List.append_nil]
    rfl
  | succ n ih =>
    intro s cap w hi hrx ho hcap hn htx
    have hlt : s.txb < s.txlen := by omega
    have hdrop : s.txb < (encodeFrame s.useChecksum (cstr (headMsg s))).length := by
      rw [encodeFrame_length]
      omega
    have hone : txrx s ⟨[], cap, w⟩
        = ({ s with txb := s.txb + 1 },
           (⟨[], cap,
             w ++ [(encodeFrame s.useChecksum (cstr (headMsg s))).getD s.txb 0]⟩ : Channel),
           false) := by
      have hrx1 : rxPhase s ⟨[], cap, w⟩ = (s, ⟨[], cap, w⟩) := rxPhase_empty s cap w hi
      have htx1 : txPhase s ⟨[], cap, w⟩
          = ({ s with txb := s.txb + 1 },
             (⟨[], cap,
               w ++ [(encodeFrame s.useChecksum (cstr (headMsg s))).getD s.txb 0]⟩ :
                 Channel)) := by
        unfold txPhase
        dsimp only
        rw [if_pos ho, txStart_id s (by omega), if_pos hlt, if_pos hcap,
          txByte_encode s htx hlt]
        rfl
      rw [txrx_of_rx_false s _ (by rw [hrx1, htx1]; exact hrx), hrx1, htx1]
    show runTicks _ _ (n + 1) = _
    rw [runTicks]
    try dsimp only
    rw [hone]
    try dsimp only
    rw [ih ({ s with txb := s.txb + 1 })
      cap (w ++ [(encodeFrame s.useChecksum (cstr (headMsg s))).getD s.txb 0])
      (by show s.i < BUFFER_SIZE; exact hi) (by show s.rx = false; exact hrx)
      (by show 0 < s.o; exact ho) hcap
      (by show s.txb + 1 + n = s.txlen; omega)
      (by show s.txlen = _; exact htx)]
    try dsimp only
    rw [show headMsg { s with txb := s.txb + 1 } = headMsg s from rfl]
    rw [show s.txb + 1 + n = s.txb + (n + 1) from by omega]
    rw [List.append_assoc]
    rw [show ([(encodeFrame s.useChecksum (cstr (headMsg s))).getD s.txb 0]
          ++ (encodeFrame s.useChecksum (cstr (headMsg s))).drop (s.txb + 1) : List Nat)
        = (encodeFrame s.useChecksum (cstr (headMsg s))).getD s.txb 0
          :: (encodeFrame s.useChecksum (cstr (headMsg s))).drop (s.txb + 1) from rfl]
    rw [← drop_getD_cons _ _ hdrop]

theorem writeList_lt (bs : List Nat) :
    ∀ (f : Nat → Nat) (k0 j : Nat), j < k0 → writeList f k0 bs j = f j := by
  induction bs with
  | nil => intro f k0 j h; rfl
  | cons b t ih =>
    intro f k0 j h
    rw [writeList, ih _ _ _ (by omega), writeCell_ne _ _ _ _ (by omega)]

theorem writeList_get (bs : List Nat) :
    ∀ (f : Nat → Nat) (k j : Nat), k ≤ j → j < k + bs.length →
      writeList f k bs j = bs.getD (j - k) 0 := by
  induction bs with
  | nil => intro f k j h1 h2; simp at h2; omega
  | cons b t ih =>
    intro f k j h1 h2
    by_cases he : j = k
    · subst he
      rw [writeList, writeList_lt t _ _ _ (by omega), writeCell_same, Nat.sub_self]
      rfl
    · rw [writeList, ih _ _ _ (by omega)
        (by simp only [List.length_cons] at h2; omega)]
      rw [show j - k = (j - (k + 1)) + 1 from by omega] at *
      rw [List.getD_cons_succ]

theorem readBuf_writeList_take (bs : List Nat) (f : Nat → Nat) (n : Nat)
    (h : n ≤ bs.length) :
    readBuf (writeList f 0 bs) n = bs.take n := by
  apply List.ext_getElem
  · rw [readBuf_length, List.length_take]
    omega
  · intro i h1 h2
    rw [readBuf_length] at h1
    have hg : (readBuf (writeList f 0 bs) n)[i] = writeList f 0 bs i := by
      simp [readBuf]
    rw [hg, writeList_get bs f 0 i (by omega) (by omega), Nat.sub_zero,
      List.getElem_take, List.getD_eq_getElem _ _ (by omega)]

/-- The last byte of `xs`, or `p` when `xs` is empty: the value threaded by
`chainOk` into a following byte. -/
def lastOf (p : Option Nat) : List Nat → Option Nat
  | [] => p
  | b :: t => lastOf (some b) t

theorem lastOf_ne_nil (xs : List Nat) :
    ∀ (p : Option Nat), xs ≠ [] → lastOf p xs = xs.getLast? := by
  induction xs with
  | nil => intro p h; exact absurd rfl h
  | cons b t ih =>
    intro p h
    cases t with
    | nil => rfl
    | cons c u =>
      rw [lastOf, ih (some b) (by simp)]
      rw [List.getLast?_cons_cons]

theorem chainOk_append_one (xs : List Nat) :
    ∀ (p : Option Nat) (a : Nat), chainOk p xs = true →
    ¬ (lastOf p xs = some MSG_END_A ∧ a = MSG_END_B) →
    chainOk p (xs ++ [a]) = true := by
  induction xs with
  | nil =>
    intro p a h1 h2
    simp only [lastOf] at h2
    show chainOk p [a] = true
    rw [chainOk, if_neg h2]
    rfl
  | cons b t ih =>
    intro p a h1 h2
    simp only [lastOf] at h2
    obtain ⟨hc1, hc2⟩ := chainOk_cons h1
    show chainOk p (b :: (t ++ [a])) = true
    rw [chainOk, if_neg hc1]
    exact ih (some b) a hc2 h2

theorem runTicks_add (m n : Nat) :
    ∀ (s : State) (ch : Channel),
      runTicks s ch (m + n)
        = runTicks (runTicks s ch m).1 (runTicks s ch m).2 n := by
  induction m with
  | zero =>
    intro s ch
    rw [Nat.zero_add]
    rfl
  | succ m ih =>
    intro s ch
    rw [show m + 1 + n = (m + n) + 1 from by omega]
    rw [runTicks, runTicks]
    exact ih (txrx s ch).1 (txrx s ch).2.1

/-- A boundary tick on the non-verifying path (checksum disabled, or fewer
than three buffered bytes): the message is the buffer below the first
terminator byte, read as a C string (fastcomms.cpp lines 187-205). -/
theorem rxPhase_boundary_else (s : State) (rest : List Nat) (cap : Nat) (w : List Nat)
    (hi : s.i < BUFFER_SIZE) (hi0 : 0 < s.i)
    (hprev : s.inBuf (s.i - 1) = MSG_END_A)
    (hnock : ¬ (s.useChecksum = true ∧ 2 < s.i)) :
    rxPhase s ⟨MSG_END_B :: rest, cap, w⟩
      = ({ deliver
            { s with inBuf := writeCell (writeCell s.inBuf s.i MSG_END_B) (s.i - 1) 0 }
            (cstr (readBuf s.inBuf (s.i - 1)))
          with i := 0 }, ⟨rest, cap, w⟩) := by
  unfold rxPhase
  dsimp only
  rw [if_pos hi, if_pos (show 0 < s.i ∧ MSG_END_B = MSG_END_B from ⟨hi0, rfl⟩),
    if_pos ((writeCell_ne s.inBuf s.i MSG_END_B (s.i - 1) (by omega)).trans hprev),
    if_neg hnock]
  rw [show readBuf
      (writeCell (writeCell s.inBuf s.i MSG_END_B) (s.i - 1) 0) (s.i - 1)
      = readBuf s.inBuf (s.i - 1) from by
    rw [readBuf_writeCell_ge _ _ _ _ (Nat.le_refl _),
      readBuf_writeCell_ge _ _ _ _ (by omega)]]

/-- A boundary tick on the verifying path with a matching checksum: the
payload below the checksum byte is delivered (fastcomms.cpp lines
143-171). -/
theorem rxPhase_boundary_checksum_ok (s : State) (rest : List Nat) (cap : Nat)
    (w : List Nat) (hi : s.i < BUFFER_SIZE)
    (hprev : s.inBuf (s.i - 1) = MSG_END_A)
    (hmode : s.useChecksum = true) (hi2 : 2 < s.i)
    (hsum : s.inBuf (s.i - 2) = checkSum (dataOf s)) :
    rxPhase s ⟨MSG_END_B :: rest, cap, w⟩
      = ({ deliver
            { s with inBuf := writeCell (writeCell s.inBuf s.i MSG_END_B) (s.i - 2) 0 }
            (dataOf s)
          with i := 0 }, ⟨rest, cap, w⟩) := by
  unfold rxPhase
  dsimp only
  rw [if_pos hi, if_pos (show 0 < s.i ∧ MSG_END_B = MSG_END_B from ⟨by omega, rfl⟩),
    if_pos ((writeCell_ne s.inBuf s.i MSG_END_B (s.i - 1) (by omega)).trans hprev),
    if_pos (show s.useChecksum = true ∧ 2 < s.i from ⟨hmode, hi2⟩)]
  have e1 : writeCell s.inBuf s.i MSG_END_B (s.i - 2) = s.inBuf (s.i - 2) :=
    writeCell_ne _ _ _ _ (by omega)
  have e2 : readBuf (writeCell (writeCell s.inBuf s.i MSG_END_B) (s.i - 2) 0) (s.i - 2)
      = readBuf s.inBuf (s.i - 2) := by
    rw [readBuf_writeCell_ge _ _ _ _ (Nat.le_refl _)]
    exact readBuf_writeCell_ge _ _ _ _ (by omega)
  rw [e1, e2]
  unfold dataOf at hsum
  rw [if_pos hsum]
  rfl

/-- A tick whose RX section delivers a message and whose queue is empty:
the tick returns true and clears the flag, leaving the delivery log and
message buffer of the delivered state. -/
theorem txrx_deliver (s d : State) (ch chr : Channel)
    (hrx : rxPhase s ch = (d, chr)) (hd : d.rx = true) (ho : d.o = 0) :
    txrx s ch = ({ d with rx := false }, chr, true) := by
  unfold txrx
  dsimp only
  rw [hrx, txPhase_queue_empty d chr ho]
  dsimp only
  rw [hd]
  rfl

/-- Starting a fresh head entry (`_txb = _txlen = 0`) and pumping for the
whole frame length with inbound silence writes exactly the encoded frame of
the head entry. -/
theorem txPump_from_start (s : State) (cap : Nat) (w : List Nat)
    (hi : s.i < BUFFER_SIZE) (hrx : s.rx = false) (ho : 0 < s.o) (hcap : 0 < cap)
    (hb0 : s.txb = 0) (hl0 : s.txlen = 0)
    (hsmall : (cstr (headMsg s)).length + 3 < 256) :
    (runTicks s ⟨[], cap, w⟩
      ((cstr (headMsg s)).length + (if s.useChecksum then 3 else 2))).2.written
      = w ++ encodeFrame s.useChecksum (cstr (headMsg s)) := by
  have hc2 : 2 ≤ (if s.useChecksum then 3 else 2) := by split <;> omega
  have hc3 : (if s.useChecksum then 3 else 2) ≤ 3 := by split <;> omega
  obtain ⟨m, hm⟩ : ∃ m,
      (cstr (headMsg s)).length + (if s.useChecksum then 3 else 2) = m + 1 :=
    ⟨(cstr (headMsg s)).length + (if s.useChecksum then 3 else 2) - 1, by omega⟩
  have hstart : txStart s
      = { s with
          txlen := ((cstr (headMsg s)).length + (if s.useChecksum then 3 else 2)) % 256 } := by
    unfold txStart
    rw [if_pos ⟨hb0, hl0⟩]
  have hmod : ((cstr (headMsg s)).length + (if s.useChecksum then 3 else 2)) % 256
      = (cstr (headMsg s)).length + (if s.useChecksum then 3 else 2) :=
    Nat.mod_eq_of_lt (by omega)
  rw [hmod] at hstart
  have h1tick : txrx s ⟨[], cap, w⟩
      = ({ ({ s with
            txlen := (cstr (headMsg s)).length + (if s.useChecksum then 3 else 2) } : State)
            with txb := s.txb + 1 },
         (⟨[], cap,
           w ++ [(encodeFrame s.useChecksum (cstr (headMsg s))).getD s.txb 0]⟩ : Channel),
         false) := by
    have hrx1 : rxPhase s ⟨[], cap, w⟩ = (s, ⟨[], cap, w⟩) := rxPhase_empty s cap w hi
    have htx1 : txPhase s ⟨[], cap, w⟩
        = ({ ({ s with
              txlen := (cstr (headMsg s)).length + (if s.useChecksum then 3 else 2) } : State)
              with txb := s.txb + 1 },
           (⟨[], cap,
             w ++ [(encodeFrame s.useChecksum (cstr (headMsg s))).getD s.txb 0]⟩ :
               Channel)) := by
      unfold txPhase
      dsimp only
      rw [if_pos ho, hstart]
      rw [if_pos (show
        ({ s with txlen := (cstr (headMsg s)).length
            + (if s.useChecksum then 3 else 2) } : State).txb
          < ({ s with txlen := (cstr (headMsg s)).length
            + (if s.useChecksum then 3 else 2) } : State).txlen from by
        show s.txb < (cstr (headMsg s)).length + (if s.useChecksum then 3 else 2)
        omega)]
      rw [if_pos hcap]
      rw [txByte_encode
        ({ s with txlen := (cstr (headMsg s)).length + (if s.useChecksum then 3 else 2) })
        rfl (by
          show s.txb < (cstr (headMsg s)).length + (if s.useChecksum then 3 else 2)
          omega)]
      rfl
    rw [txrx_of_rx_false s _ (by rw [hrx1, htx1]; exact hrx), hrx1, htx1]
  rw [hm, runTicks]
  try dsimp only
  rw [h1tick]
  try dsimp only
  rw [txPump_aux m
    ({ ({ s with
        txlen := (cstr (headMsg s)).length + (if s.useChecksum then 3 else 2) } : State)
        with txb := s.txb + 1 })
    cap (w ++ [(encodeFrame s.useChecksum (cstr (headMsg s))).getD s.txb 0])
    (by show s.i < BUFFER_SIZE; exact hi) (by show s.rx = false; exact hrx)
    (by show 0 < s.o; exact ho) hcap
    (by show s.txb + 1 + m = (cstr (headMsg s)).length + (if s.useChecksum then 3 else 2)
        omega)
    rfl]
  show (w ++ [(encodeFrame s.useChecksum (cstr (headMsg s))).getD s.txb 0])
      ++ (encodeFrame s.useChecksum (cstr (headMsg s))).drop (s.txb + 1)
      = w ++ encodeFrame s.useChecksum (cstr (headMsg s))
  rw [hb0, List.append_assoc]
  rw [show ([(encodeFrame s.useChecksum (cstr (headMsg s))).getD 0 0]
        ++ (encodeFrame s.useChecksum (cstr (headMsg s))).drop (0 + 1) : List Nat)
      = (encodeFrame s.useChecksum (cstr (headMsg s))).getD 0 0
        :: (encodeFrame s.useChecksum (cstr (headMsg s))).drop (0 + 1) from rfl]
  rw [← drop_getD_cons _ _ (by rw [encodeFrame_length]; omega), List.drop_zero]

theorem runTicks_one (s : State) (ch : Channel) :
    runTicks s ch 1 = ((txrx s ch).1, (txrx s ch).2.1) := rfl

theorem runTicks_feed_init (mode : Bool) (bs rest : List Nat) (cap : Nat) (w : List Nat)
    (hle : bs.length ≤ BUFFER_SIZE) (hchain : chainOk none bs = true) :
    runTicks (init0 mode) ⟨bs ++ rest, cap, w⟩ bs.length
      = ({ init0 mode with
            inBuf := writeList (init0 mode).inBuf 0 bs, i := bs.length },
         ⟨rest, cap, w⟩) := by
  rw [runTicks_feed bs (init0 mode) rest cap w
      (by show 0 + bs.length ≤ BUFFER_SIZE; omega) rfl rfl hchain,
    show (init0 mode).i = 0 from rfl, Nat.zero_add]

/-- Final terminator byte on the non-verifying path, fed to a receiver
whose buffer holds `bs`: the delivered message is the buffer below the
first terminator byte, read as a C string. -/
theorem rx_final_else (mode : Bool) (bs : List Nat) (hne : 0 < bs.length)
    (hlt : bs.length < BUFFER_SIZE)
    (hlast : bs.getD (bs.length - 1) 0 = MSG_END_A)
    (hnock : ¬ (mode = true ∧ 2 < bs.length)) :
    (txrx { init0 mode with
        inBuf := writeList (init0 mode).inBuf 0 bs, i := bs.length }
      ⟨[MSG_END_B], 0, []⟩).1.delivered = [cstr (bs.take (bs.length - 1))] ∧
    (txrx { init0 mode with
        inBuf := writeList (init0 mode).inBuf 0 bs, i := bs.length }
      ⟨[MSG_END_B], 0, []⟩).1.msg = cstr (bs.take (bs.length - 1)) := by
  have hprev : ({ init0 mode with
      inBuf := writeList (init0 mode).inBuf 0 bs, i := bs.length } : State).inBuf
      (({ init0 mode with
        inBuf := writeList (init0 mode).inBuf 0 bs, i := bs.length } : State).i - 1)
      = MSG_END_A := by
    show writeList (init0 mode).inBuf 0 bs (bs.length - 1) = MSG_END_A
    rw [writeList_get bs _ 0 _ (by omega) (by omega), Nat.sub_zero]
    exact hlast
  have hdel := rxPhase_boundary_else
    ({ init0 mode with
        inBuf := writeList (init0 mode).inBuf 0 bs, i := bs.length } : State)
    [] 0 [] (by show bs.length < BUFFER_SIZE; omega)
    (by show 0 < bs.length; omega) hprev
    (by show ¬ (({ init0 mode with
        inBuf := writeList (init0 mode).inBuf 0 bs, i := bs.length } : State).useChecksum
          = true ∧ 2 < bs.length)
        rintro ⟨h1, h2⟩
        exact hnock ⟨h1, h2⟩)
  have hdata : cstr (readBuf
      ({ init0 mode with
        inBuf := writeList (init0 mode).inBuf 0 bs, i := bs.length } : State).inBuf
      (({ init0 mode with
        inBuf := writeList (init0 mode).inBuf 0 bs, i := bs.length } : State).i - 1))
      = cstr (bs.take (bs.length - 1)) := by
    show cstr (readBuf (writeList (init0 mode).inBuf 0 bs) (bs.length - 1)) = _
    rw [readBuf_writeList_take bs _ _ (by omega)]
  have htick := txrx_deliver _ _ _ _ hdel rfl rfl
  rw [htick]
  constructor
  · show [cstr (readBuf (writeList (init0 mode).inBuf 0 bs) (bs.length - 1))] = _
    rw [show cstr (readBuf (writeList (init0 mode).inBuf 0 bs) (bs.length - 1))
        = cstr (bs.take (bs.length - 1)) from hdata]
  · exact hdata

/-- Final terminator byte on the verifying path with a matching checksum,
fed to a receiver whose buffer holds `bs` (payload, checksum byte, first
terminator byte): the delivered message is the payload below the checksum
byte, read as a C string. -/
theorem rx_final_cksum (bs : List Nat) (h3 : 2 < bs.length)
    (hlt : bs.length < BUFFER_SIZE)
    (hlast : bs.getD (bs.length - 1) 0 = MSG_END_A)
    (hsum : bs.getD (bs.length - 2) 0 = checkSum (cstr (bs.take (bs.length - 2)))) :
    (txrx { init0 true with
        inBuf := writeList (init0 true).inBuf 0 bs, i := bs.length }
      ⟨[MSG_END_B], 0, []⟩).1.delivered = [cstr (bs.take (bs.length - 2))] ∧
    (txrx { init0 true with
        inBuf := writeList (init0 true).inBuf 0 bs, i := bs.length }
      ⟨[MSG_END_B], 0, []⟩).1.msg = cstr (bs.take (bs.length - 2)) := by
  have hprev : ({ init0 true with
      inBuf := writeList (init0 true).inBuf 0 bs, i := bs.length } : State).inBuf
      (({ init0 true with
        inBuf := writeList (init0 true).inBuf 0 bs, i := bs.length } : State).i - 1)
      = MSG_END_A := by
    show writeList (init0 true).inBuf 0 bs (bs.length - 1) = MSG_END_A
    rw [writeList_get bs _ 0 _ (by omega) (by omega), Nat.sub_zero]
    exact hlast
  have hdata : dataOf ({ init0 true with
      inBuf := writeList (init0 true).inBuf 0 bs, i := bs.length } : State)
      = cstr (bs.take (bs.length - 2)) := by
    show cstr (readBuf (writeList (init0 true).inBuf 0 bs) (bs.length - 2)) = _
    rw [readBuf_writeList_take bs _ _ (by omega)]
  have hsum2 : ({ init0 true with
      inBuf := writeList (init0 true).inBuf 0 bs, i := bs.length } : State).inBuf
      (({ init0 true with
        inBuf := writeList (init0 true).inBuf 0 bs, i := bs.length } : State).i - 2)
      = checkSum (dataOf ({ init0 true with
        inBuf := writeList (init0 true).inBuf 0 bs, i := bs.length } : State)) := by
    rw [hdata]
    show writeList (init0 true).inBuf 0 bs (bs.length - 2) = _
    rw [writeList_get bs _ 0 _ (by omega) (by omega), Nat.sub_zero]
    exact hsum
  have hdel := rxPhase_boundary_checksum_ok
    ({ init0 true with
        inBuf := writeList (init0 true).inBuf 0 bs, i := bs.length } : State)
    [] 0 [] (by show bs.length < BUFFER_SIZE; omega) hprev rfl
    (by show 2 < bs.length; omega) hsum2
  have htick := txrx_deliver _ _ _ _ hdel rfl rfl
  rw [htick]
  constructor
  · show [dataOf ({ init0 true with
        inBuf := writeList (init0 true).inBuf 0 bs, i := bs.length } : State)] = _
    rw [show dataOf ({ init0 true with
        inBuf := writeList (init0 true).inBuf 0 bs, i := bs.length } : State)
        = cstr (bs.take (bs.length - 2)) from hdata]
  · exact hdata

/-- Enqueuing a null-free payload of length at most 63 on a fresh object
and pumping one frame length of ticks writes exactly the encoded frame. -/
theorem txSend_writes_frame (mode : Bool) (P : List Nat)
    (hcP : cstr P = P) (hP63 : P.length ≤ 63) :
    (runTicks (sendMsg (init0 mode) P).1 ⟨[], 1, []⟩
        (P.length + (if mode then 3 else 2))).2.written = encodeFrame mode P := by
  have hB : BUFFER_SIZE = 64 := rfl
  have hl0 : (cstr P).length % 256 < BUFFER_SIZE := by
    rw [hcP, Nat.mod_eq_of_lt (by omega)]
    omega
  have ho4 : (init0 mode).o < TX_QUEUE_SIZE := by
    show (0:Nat) < TX_QUEUE_SIZE
    decide
  have hsend := sendMsg_success (init0 mode) P ho4 hl0
  have hhm : headMsg (sendMsg (init0 mode) P).1 = P := by
    rw [hsend]
    unfold headMsg
    dsimp only
    have h00 : (0:Nat) = (init0 mode).o := rfl
    rw [show writeCell (init0 mode).out (init0 mode).o (init0 mode).obi 0
        = (init0 mode).obi from (by
      unfold writeCell
      rw [if_pos h00])]
    show (if (init0 mode).obi = (init0 mode).obi
        then (cstr P).take (BUFFER_SIZE - 1) else (init0 mode).ob (init0 mode).obi) = P
    rw [if_pos rfl, hcP]
    exact List.take_of_length_le (by omega)
  have huse : (sendMsg (init0 mode) P).1.useChecksum = mode := by
    rw [sendMsg_useChecksum]
    rfl
  have HT := txPump_from_start (sendMsg (init0 mode) P).1 1 []
    (by rw [sendMsg_i]; show (0:Nat) < BUFFER_SIZE; decide)
    (by rw [sendMsg_rx]; rfl)
    (by rw [sendMsg_o_of (init0 mode) P ho4 hl0]; omega)
    (by decide)
    (by rw [sendMsg_txb]; rfl)
    (by rw [sendMsg_txlen]; rfl)
    (by rw [hhm, hcP]; omega)
  rw [hhm, hcP, huse, List.nil_append] at HT
  exact HT

/-- C1 (corrected, amended claim): for every null-free payload `P` of at
most the mode-dependent maximum length, containing no internal
`TERM_A TERM_B` pair, and — when checksums are enabled — not ending in
`TERM_A` while having checksum `TERM_B` (which would place a terminator
pair across the payload/checksum boundary), encoding `P` on the transmit
side (enqueue via `sendMsg`, then pumping `txrx` until the frame is fully
written) produces the wire frame `Payload [Checksum] TERM_A TERM_B`, and
feeding those wire bytes one per tick into a fresh receiver in the same
mode delivers exactly one message equal to `P`, invoking the registered
handler on it. -/
theorem C1_amended (mode : Bool) (P : List Nat)
    (hby : ∀ b ∈ P, 0 < b ∧ b < 256)
    (hterm : chainOk none P = true)
    (hlen : P.length ≤ BUFFER_SIZE - (if mode then 3 else 2))
    (hframe : mode = true → P ≠ [] →
      ¬ (P.getLast? = some MSG_END_A ∧ checkSum P = MSG_END_B)) :
    (runTicks (sendMsg (init0 mode) P).1 ⟨[], 1, []⟩
        (P.length + (if mode then 3 else 2))).2.written = encodeFrame mode P ∧
    (runTicks (init0 mode) ⟨encodeFrame mode P, 0, []⟩
        (encodeFrame mode P).length).1.delivered = [P] ∧
    (runTicks (init0 mode) ⟨encodeFrame mode P, 0, []⟩
        (encodeFrame mode P).length).1.msg = P := by
  have hB : BUFFER_SIZE = 64 := rfl
  have hcP : cstr P = P := cstr_eq_self P (fun b hb => by have := hby b hb; omega)
  have hite2 : 2 ≤ (if mode then 3 else 2) := by split <;> omega
  have hP62 : P.length ≤ 62 := by omega
  refine ⟨txSend_writes_frame mode P hcP (by omega), ?_⟩
  cases mode with
  | false =>
    have hwire : encodeFrame false P = (P ++ [MSG_END_A]) ++ [MSG_END_B] := by
      simp [encodeFrame]
    rw [hwire, show ((P ++ [MSG_END_A]) ++ [MSG_END_B]).length
      = (P ++ [MSG_END_A]).length + 1 from by
        simp only [List.length_append, List.length_cons, List.length_nil]]
    rw [runTicks_add, runTicks_feed_init false (P ++ [MSG_END_A]) [MSG_END_B] 0 []
      (by simp only [List.length_append, List.length_cons, List.length_nil]; omega)
      (chainOk_append_one P none MSG_END_A hterm
        (by rintro ⟨_, h2⟩; exact absurd h2 (by decide)))]
    rw [runTicks_one]
    have hfin := rx_final_else false (P ++ [MSG_END_A])
      (by simp only [List.length_append, List.length_cons, List.length_nil]; omega)
      (by simp only [List.length_append, List.length_cons, List.length_nil]; omega)
      (by rw [show (P ++ [MSG_END_A]).length - 1 = P.length from by
            simp only [List.length_append, List.length_cons, List.length_nil]; omega]
          rw [List.getD_append_right _ _ _ _ (Nat.le_refl _), Nat.sub_self]
          rfl)
      (by rintro ⟨h, _⟩; exact absurd h (by decide))
    have htake : cstr ((P ++ [MSG_END_A]).take ((P ++ [MSG_END_A]).length - 1)) = P := by
      rw [show (P ++ [MSG_END_A]).length - 1 = P.length from by
          simp only [List.length_append, List.length_cons, List.length_nil]; omega]
      rw [List.take_left]
      exact hcP
    rw [htake] at hfin
    exact ⟨hfin.1, hfin.2⟩
  | true =>
    by_cases hPe : P = []
    · subst hPe
      exact ⟨by decide, by decide⟩
    · have hL1 : 1 ≤ P.length := List.length_pos.mpr hPe
      have hP61 : P.length ≤ 61 := by
        have h3 : (if true then 3 else 2 : Nat) = 3 := rfl
        omega
      have hwire : encodeFrame true P
          = ((P ++ [checkSum P]) ++ [MSG_END_A]) ++ [MSG_END_B] := by
        simp [encodeFrame]
      have hseam : ¬ (lastOf none P = some MSG_END_A ∧ checkSum P = MSG_END_B) := by
        rw [lastOf_ne_nil P none hPe]
        exact hframe rfl hPe
      have hchain2 : chainOk none ((P ++ [checkSum P]) ++ [MSG_END_A]) = true :=
        chainOk_append_one (P ++ [checkSum P]) none MSG_END_A
          (chainOk_append_one P none (checkSum P) hterm hseam)
          (by rintro ⟨_, h2⟩; exact absurd h2 (by decide))
      rw [hwire, show (((P ++ [checkSum P]) ++ [MSG_END_A]) ++ [MSG_END_B]).length
        = ((P ++ [checkSum P]) ++ [MSG_END_A]).length + 1 from by
          simp only [List.length_append, List.length_cons, List.length_nil]]
      rw [runTicks_add, runTicks_feed_init true ((P ++ [checkSum P]) ++ [MSG_END_A])
        [MSG_END_B] 0 []
        (by simp only [List.length_append, List.length_cons, List.length_nil]; omega)
        hchain2]
      rw [runTicks_one]
      have htake2 : cstr (((P ++ [checkSum P]) ++ [MSG_END_A]).take
          (((P ++ [checkSum P]) ++ [MSG_END_A]).length - 2)) = P := by
        rw [show ((P ++ [checkSum P]) ++ [MSG_END_A]).length - 2 = P.length from by
            simp only [List.length_append, List.length_cons, List.length_nil]; omega]
        rw [List.take_append_of_le_length (by
            simp only [List.length_append, List.length_cons, List.length_nil]; omega)]
        rw [List.take_append_of_le_length (Nat.le_refl _), List.take_length]
        exact hcP
      have hfin := rx_final_cksum ((P ++ [checkSum P]) ++ [MSG_END_A])
        (by simp only [List.length_append, List.length_cons, List.length_nil]; omega)
        (by simp only [List.length_append, List.length_cons, List.length_nil]; omega)
        (by rw [show ((P ++ [checkSum P]) ++ [MSG_END_A]).length - 1
              = (P ++ [checkSum P]).length from by
              simp only [List.length_append, List.length_cons, List.length_nil]; omega]
            rw [List.getD_append_right _ _ _ _ (Nat.le_refl _), Nat.sub_self]
            rfl)
        (by rw [htake2]
            rw [show ((P ++ [checkSum P]) ++ [MSG_END_A]).length - 2 = P.length from by
                simp only [List.length_append, List.length_cons, List.length_nil]; omega]
            rw [List.getD_append _ _ _ _ (by
                simp only [List.length_append, List.length_cons, List.length_nil]; omega)]
            rw [List.getD_append_right _ _ _ _ (Nat.le_refl _), Nat.sub_self]
            rfl)
      rw [htake2] at hfin
      exact ⟨hfin.1, hfin.2⟩

set_option maxRecDepth 10000 in
/-- Witness for C1_amended: the payload "hi" ([104, 105]) in no-checksum
mode satisfies every hypothesis, the transmitter writes the frame
104 105 13 10, and the receiver fed that frame delivers exactly
[104, 105]. -/
theorem C1_amended_witness :
    (∀ b ∈ ([104, 105] : List Nat), 0 < b ∧ b < 256) ∧
    chainOk none [104, 105] = true ∧
    ([104, 105] : List Nat).length ≤ BUFFER_SIZE - (if false then 3 else 2) ∧
    ((runTicks (sendMsg (init0 false) [104, 105]).1 ⟨[], 1, []⟩
        (([104, 105] : List Nat).length + (if false then 3 else 2))).2.written
      = encodeFrame false [104, 105] ∧
     (runTicks (init0 false) ⟨encodeFrame false [104, 105], 0, []⟩
        (encodeFrame false [104, 105]).length).1.delivered = [[104, 105]] ∧
     (runTicks (init0 false) ⟨encodeFrame false [104, 105], 0, []⟩
        (encodeFrame false [104, 105]).length).1.msg = [104, 105]) :=
  ⟨by decide, by decide, by decide,
   C1_amended false [104, 105] (by decide) (by decide) (by decide) (by decide)⟩

set_option maxRecDepth 10000 in
/-- Counterexample to the claim as written: the payload [253, 13] contains
no internal terminator pair and fits the checksum-mode length bound, yet in
checksum mode its additive checksum is 10, so the wire frame is
253 13 10 13 10 and the receiver sees a terminator pair 13 10 straddling
the payload/checksum boundary: it delivers TWO messages ([253] and []),
neither equal to the payload, instead of the single message the claim
promises for every fitting payload with no internal pair. -/
theorem C1_counterexample_checksum_terminator_seam :
    (runTicks (sendMsg (init0 true) [253, 13]).1 ⟨[], 1, []⟩ 5).2.written
      = [253, 13, 10, 13, 10] ∧
    (runTicks (init0 true) ⟨[253, 13, 10, 13, 10], 0, []⟩ 5).1.delivered
      = [[253], []] ∧
    ([[253], []] : List (List Nat)) ≠ [[253, 13]] ∧
    (∀ b ∈ ([253, 13] : List Nat), 0 < b ∧ b < 256) ∧
    chainOk none [253, 13] = true ∧
    ([253, 13] : List Nat).length ≤ BUFFER_SIZE - 3 :=
  ⟨by decide, by decide, by decide, by decide, by decide, by decide⟩
